import Mathlib

/-!
Verification of the srlz serialization engine against its specification.

The repository's `srlz` package (the dispatch-and-reconstruction engine of
`Serialization`, and the `concat` list-formatting utility) is not present in
the source tree; only its test suite is.  The definitions below are therefore
modelled from the specification (sections 2-7 of spec.md), with the test
suite pinning concrete behaviours (tag names "datetime", "bytes",
"dataclass", error message shapes).  Host values are embedded as the
inductive `Value`; the engine state is the structure `Serialization`.
-/

namespace Srlz

/-- Modelled from the spec: the list-formatting utility `srlz.utils.concat`
(spec 4.6).  Empty input renders the fixed none marker, one item renders
itself, two items are joined by "and", three or more are comma-joined with
the final item joined by "and" and no serial comma. -/
def concat : List String → String
  | [] => "<none>"
  | [x] => x
  | [x, y] => x ++ " and " ++ y
  | x :: rest => x ++ ", " ++ concat rest

example : concat [] = "<none>" := rfl
example : concat ["1"] = "1" := rfl
example : concat ["1", "2"] = "1 and 2" := rfl
example : concat ["1", "2", "3"] = "1, 2 and 3" := rfl

/-! Decimal rendering of natural numbers, used by the model of ISO-8601
timestamp formatting.  `natDigits` is fuelled so that it is structurally
recursive and kernel-reducible. -/

/-- Most-significant-first decimal digits of `n`; the fuel bounds recursion
depth and is always sufficient when `n < fuel`. -/
def natDigitsAux : Nat → Nat → List Nat
  | 0, _ => []
  | fuel + 1, n => if n < 10 then [n] else natDigitsAux fuel (n / 10) ++ [n % 10]

/-- Decimal digit list of a natural number, most significant first. -/
def natDigits (n : Nat) : List Nat := natDigitsAux (n + 1) n

/-- Character for one decimal digit. -/
def digitToChar (d : Nat) : Char := Char.ofNat (48 + d)

/-- Numeric value of one decimal digit character. -/
def charToDigit (c : Char) : Nat := c.toNat - 48

/-- Decimal character rendering of a natural number. -/
def natChars (n : Nat) : List Char := (natDigits n).map digitToChar

/-- Left fold turning a digit-character list back into a number. -/
def parseNatChars (cs : List Char) : Nat :=
  cs.foldl (fun a c => a * 10 + charToDigit c) 0

theorem natDigitsAux_eq {f1 f2 n : Nat} (h1 : n < f1) (h2 : n < f2) :
    natDigitsAux f1 n = natDigitsAux f2 n := by
  induction n using Nat.strong_induction_on generalizing f1 f2 with
  | _ n ih =>
    cases f1 with
    | zero => omega
    | succ fa =>
      cases f2 with
      | zero => omega
      | succ fb =>
        simp only [natDigitsAux]
        by_cases h10 : n < 10
        · simp [h10]
        · have hdiv : n / 10 < n := Nat.div_lt_self (by omega) (by omega)
          rw [if_neg h10, if_neg h10, @ih (n / 10) hdiv fa fb (by omega) (by omega)]

theorem natDigits_def (n : Nat) :
    natDigits n = if n < 10 then [n] else natDigits (n / 10) ++ [n % 10] := by
  show natDigitsAux (n + 1) n = _
  rw [natDigitsAux]
  by_cases h : n < 10
  · rw [if_pos h, if_pos h]
  · have hdiv : n / 10 < n := Nat.div_lt_self (by omega) (by omega)
    rw [if_neg h, if_neg h, natDigits,
      @natDigitsAux_eq n (n / 10 + 1) (n / 10) (by omega) (by omega)]

theorem natDigits_ne_nil (n : Nat) : natDigits n ≠ [] := by
  rw [natDigits_def]
  split <;> simp

theorem natDigits_lt_ten (n : Nat) : ∀ d ∈ natDigits n, d < 10 := by
  induction n using Nat.strong_induction_on with
  | _ n ih =>
    rw [natDigits_def]
    by_cases h : n < 10
    · simp only [if_pos h]
      simp only [List.mem_singleton]
      omega
    · have hdiv : n / 10 < n := Nat.div_lt_self (by omega) (by omega)
      simp only [if_neg h]
      intro d hd
      rcases List.mem_append.1 hd with h1 | h1
      · exact ih _ hdiv d h1
      · simp at h1; omega

theorem charToDigit_digitToChar : ∀ d < 10, charToDigit (digitToChar d) = d := by
  decide

theorem digitToChar_isDigit : ∀ d < 10, (digitToChar d).isDigit = true := by
  decide

theorem natChars_all_digit (n : Nat) : ∀ c ∈ natChars n, c.isDigit = true := by
  intro c hc
  rcases List.mem_map.1 hc with ⟨d, hd, rfl⟩
  exact digitToChar_isDigit d (natDigits_lt_ten n d hd)

theorem natChars_ne_nil (n : Nat) : natChars n ≠ [] := by
  simp [natChars, natDigits_ne_nil]

theorem parseNatChars_natChars (n : Nat) : parseNatChars (natChars n) = n := by
  induction n using Nat.strong_induction_on with
  | _ n ih =>
    by_cases h : n < 10
    · simp only [natChars]
      rw [natDigits_def, if_pos h]
      simp only [List.map_cons, List.map_nil, parseNatChars, List.foldl_cons,
        List.foldl_nil]
      rw [charToDigit_digitToChar n h]
      omega
    · have hdiv : n / 10 < n := Nat.div_lt_self (by omega) (by omega)
      have hmod : n % 10 < 10 := Nat.mod_lt _ (by omega)
      simp only [natChars]
      rw [natDigits_def, if_neg h]
      simp only [List.map_append, List.map_cons, List.map_nil, parseNatChars,
        List.foldl_append, List.foldl_cons, List.foldl_nil]
      have hrec := ih _ hdiv
      simp only [natChars, parseNatChars] at hrec
      rw [hrec, charToDigit_digitToChar _ hmod]
      omega

theorem takeWhile_append_of_all {p : Char → Bool} {l1 l2 : List Char}
    (h : ∀ c ∈ l1, p c = true) :
    (l1 ++ l2).takeWhile p = l1 ++ l2.takeWhile p := by
  induction l1 with
  | nil => simp
  | cons c cs ih =>
    have hc : p c = true := h c (by simp)
    simp [List.takeWhile_cons, hc, ih (fun c hc => h c (by simp [hc]))]

theorem dropWhile_append_of_all {p : Char → Bool} {l1 l2 : List Char}
    (h : ∀ c ∈ l1, p c = true) :
    (l1 ++ l2).dropWhile p = l2.dropWhile p := by
  induction l1 with
  | nil => simp
  | cons c cs ih =>
    have hc : p c = true := h c (by simp)
    simp [List.dropWhile_cons, hc, ih (fun c hc => h c (by simp [hc]))]

/-- Modelled from the spec: the timestamp data model.  A timestamp is a
wall-clock instant together with an optional timezone offset; `tz = none`
is a naive (timezone-free) timestamp (spec 4.1). -/
structure Datetime where
  wall : Nat
  tz : Option Int
deriving DecidableEq, Repr

/-- Modelled from the spec: the fixed local timezone of the process, as an
offset attributed to naive timestamps before formatting (spec 4.1). -/
def localOffset : Int := 120

/-- Modelled from the spec: attributing the process's local timezone to a
timestamp that has none; a timestamp with an explicit timezone is kept
as-is (spec 4.1). -/
def astimezone (d : Datetime) : Datetime :=
  match d.tz with
  | some _ => d
  | none => ⟨d.wall, some localOffset⟩

/-- Timezone suffix of the ISO-8601 rendering: empty for a naive timestamp,
a signed decimal offset for an aware one. -/
def tzChars : Option Int → List Char
  | none => []
  | some o => (if o < 0 then '-' else '+') :: natChars o.natAbs

/-- Modelled from the spec: the ISO-8601 rendering of a timestamp, as an
injective textual encoding of its wall clock and optional offset
(spec 4.1; the calendar arithmetic of the host formatting is abstracted). -/
def isoformat (d : Datetime) : String :=
  String.mk (natChars d.wall ++ tzChars d.tz)

/-- Modelled from the spec: parsing an ISO-8601 string back to a timestamp
with its encoded offset, never re-localized (spec 4.1). -/
def fromisoformat (s : String) : Option Datetime :=
  let cs := s.data
  let ds := cs.takeWhile Char.isDigit
  let rest := cs.dropWhile Char.isDigit
  if ds.isEmpty then none else
  let wall := parseNatChars ds
  match rest with
  | [] => some ⟨wall, none⟩
  | '+' :: more => some ⟨wall, some (parseNatChars more)⟩
  | '-' :: more => some ⟨wall, some (-(parseNatChars more : Int))⟩
  | _ => none

theorem tzChars_head_not_digit (tz : Option Int) :
    (tzChars tz).takeWhile Char.isDigit = [] ∧
    (tzChars tz).dropWhile Char.isDigit = tzChars tz := by
  match tz with
  | none => simp [tzChars]
  | some o =>
    by_cases h : o < 0 <;>
      simp [tzChars, h, List.takeWhile_cons, List.dropWhile_cons]

theorem fromisoformat_isoformat (d : Datetime) :
    fromisoformat (isoformat d) = some d := by
  obtain ⟨wall, tz⟩ := d
  have hdig : ∀ c ∈ natChars wall, Char.isDigit c = true := natChars_all_digit wall
  have htake := @takeWhile_append_of_all Char.isDigit (natChars wall) (tzChars tz) hdig
  have hdrop := @dropWhile_append_of_all Char.isDigit (natChars wall) (tzChars tz) hdig
  have htz := tzChars_head_not_digit tz
  simp only [fromisoformat, isoformat]
  rw [htake, hdrop, htz.1, htz.2, List.append_nil]
  rw [if_neg (by simpa [List.isEmpty_iff] using natChars_ne_nil wall)]
  rw [parseNatChars_natChars]
  match tz with
  | none => rfl
  | some o =>
    by_cases h : o < 0
    · simp only [tzChars, if_pos h, parseNatChars_natChars]
      simp only [Option.some.injEq, Datetime.mk.injEq, true_and]
      omega
    · simp only [tzChars, if_neg h, parseNatChars_natChars]
      simp only [Option.some.injEq, Datetime.mk.injEq, true_and]
      omega

/-! Base64 encoding of byte strings, modelled from the spec (spec 4.1):
a byte string serializes to the base64 text of its bytes. -/

/-- Character of one base64 sextet, standard alphabet. -/
def base64Char (i : Nat) : Char :=
  if i < 26 then Char.ofNat (65 + i)
  else if i < 52 then Char.ofNat (97 + (i - 26))
  else if i < 62 then Char.ofNat (48 + (i - 52))
  else if i = 62 then '+' else '/'

/-- Sextet of one base64 character, failing on characters outside the
standard alphabet. -/
def base64CharDec (c : Char) : Option (Fin 64) :=
  if h : 65 ≤ c.toNat ∧ c.toNat ≤ 90 then some ⟨c.toNat - 65, by omega⟩
  else if h : 97 ≤ c.toNat ∧ c.toNat ≤ 122 then some ⟨c.toNat - 97 + 26, by omega⟩
  else if h : 48 ≤ c.toNat ∧ c.toNat ≤ 57 then some ⟨c.toNat - 48 + 52, by omega⟩
  else if c = '+' then some ⟨62, by omega⟩
  else if c = '/' then some ⟨63, by omega⟩
  else none

set_option maxRecDepth 8192 in
theorem base64CharDec_base64Char :
    ∀ i : Fin 64, base64CharDec (base64Char i.val) = some i := by
  decide

/-- Base64 character stream of a byte list, three bytes to four characters,
with "=" padding for a trailing one- or two-byte group. -/
def base64Chars : List (Fin 256) → List Char
  | [] => []
  | [b1] =>
    [base64Char (b1.val / 4), base64Char (b1.val % 4 * 16), '=', '=']
  | [b1, b2] =>
    [base64Char (b1.val / 4), base64Char (b1.val % 4 * 16 + b2.val / 16),
     base64Char (b2.val % 16 * 4), '=']
  | b1 :: b2 :: b3 :: rest =>
    base64Char (b1.val / 4) :: base64Char (b1.val % 4 * 16 + b2.val / 16) ::
    base64Char (b2.val % 16 * 4 + b3.val / 64) :: base64Char (b3.val % 64) ::
    base64Chars rest

/-- Inverse of `base64Chars`, failing on malformed input. -/
def base64CharsDec : List Char → Option (List (Fin 256))
  | [] => some []
  | c1 :: c2 :: c3 :: c4 :: rest =>
    if c3 = '=' then
      if c4 = '=' ∧ rest = [] then do
        let s1 ← base64CharDec c1
        let s2 ← base64CharDec c2
        some [⟨s1.val * 4 + s2.val / 16, by omega⟩]
      else none
    else if c4 = '=' then
      if rest = [] then do
        let s1 ← base64CharDec c1
        let s2 ← base64CharDec c2
        let s3 ← base64CharDec c3
        some [⟨s1.val * 4 + s2.val / 16, by omega⟩,
              ⟨s2.val % 16 * 16 + s3.val / 4, by omega⟩]
      else none
    else do
      let s1 ← base64CharDec c1
      let s2 ← base64CharDec c2
      let s3 ← base64CharDec c3
      let s4 ← base64CharDec c4
      let bs ← base64CharsDec rest
      some (⟨s1.val * 4 + s2.val / 16, by omega⟩ ::
            ⟨s2.val % 16 * 16 + s3.val / 4, by omega⟩ ::
            ⟨s3.val % 4 * 64 + s4.val, by omega⟩ :: bs)
  | _ => none

/-- Base64 text of a byte string. -/
def base64encode (bs : List (Fin 256)) : String := String.mk (base64Chars bs)

/-- Bytes of a base64 text, failing on malformed input. -/
def base64decode (s : String) : Option (List (Fin 256)) := base64CharsDec s.data

theorem base64Char_ne_pad : ∀ n < 64, base64Char n ≠ '=' := by decide

theorem optBindSome {α β : Type} (a : α) (f : α → Option β) :
    (some a >>= f) = f a := rfl

theorem base64CharsDec_base64Chars :
    ∀ bs : List (Fin 256), base64CharsDec (base64Chars bs) = some bs
  | [] => rfl
  | [b1] => by
    obtain ⟨b1, h1⟩ := b1
    have e1 := base64CharDec_base64Char ⟨b1 / 4, by omega⟩
    have e2 := base64CharDec_base64Char ⟨b1 % 4 * 16, by omega⟩
    simp only [base64Chars, base64CharsDec, if_pos rfl, and_self, reduceIte,
      e1, e2, optBindSome]
    simp only [Option.some.injEq, List.cons.injEq, and_true, Fin.mk.injEq]
    omega
  | [b1, b2] => by
    obtain ⟨b1, h1⟩ := b1
    obtain ⟨b2, h2⟩ := b2
    have e1 := base64CharDec_base64Char ⟨b1 / 4, by omega⟩
    have e2 := base64CharDec_base64Char ⟨b1 % 4 * 16 + b2 / 16, by omega⟩
    have e3 := base64CharDec_base64Char ⟨b2 % 16 * 4, by omega⟩
    have hne : base64Char (b2 % 16 * 4) ≠ '=' := base64Char_ne_pad _ (by omega)
    simp only [base64Chars, base64CharsDec, if_neg hne, if_pos rfl, reduceIte,
      e1, e2, e3, optBindSome]
    simp only [Option.some.injEq, List.cons.injEq, and_true, Fin.mk.injEq]
    omega
  | b1 :: b2 :: b3 :: rest => by
    obtain ⟨b1, h1⟩ := b1
    obtain ⟨b2, h2⟩ := b2
    obtain ⟨b3, h3⟩ := b3
    have e1 := base64CharDec_base64Char ⟨b1 / 4, by omega⟩
    have e2 := base64CharDec_base64Char ⟨b1 % 4 * 16 + b2 / 16, by omega⟩
    have e3 := base64CharDec_base64Char ⟨b2 % 16 * 4 + b3 / 64, by omega⟩
    have e4 := base64CharDec_base64Char ⟨b3 % 64, by omega⟩
    have hne3 : base64Char (b2 % 16 * 4 + b3 / 64) ≠ '=' :=
      base64Char_ne_pad _ (by omega)
    have hne4 : base64Char (b3 % 64) ≠ '=' := base64Char_ne_pad _ (by omega)
    have ih := base64CharsDec_base64Chars rest
    simp only [base64Chars, base64CharsDec, if_neg hne3, if_neg hne4,
      e1, e2, e3, e4, optBindSome, ih]
    simp only [Option.some.injEq, List.cons.injEq, and_true, Fin.mk.injEq]
    omega

theorem base64decode_base64encode (bs : List (Fin 256)) :
    base64decode (base64encode bs) = some bs :=
  base64CharsDec_base64Chars bs

/-- Modelled from the spec: the universe of host values the engine can see
(spec 2, 3).  Wire values are the subset built from `null`, `bool`, `int`,
`str`, `list` and `dict`; `tuple` and `set` are the further ordered
containers, `datetime` and `bytes` the further built-in leaf types,
`record` a structurally field-declared record instance (a dataclass
instance, carrying its type name and fields), `obj` a class instance
(carrying its runtime class name and its merged slot and dynamic
attributes), and `ellipsis` a host value no built-in handler accepts.
Numbers are embedded as integers. -/
inductive Value where
  | null
  | bool (b : Bool)
  | int (n : Int)
  | str (s : String)
  | list (xs : List Value)
  | tuple (xs : List Value)
  | set (xs : List Value)
  | dict (kvs : List (String × Value))
  | datetime (d : Datetime)
  | bytes (bs : List (Fin 256))
  | record (cls : String) (fields : List (String × Value))
  | obj (cls : String) (attrs : List (String × Value))
  | ellipsis

theorem sizeOf_snd_lt {kvs : List (String × Value)} {kv : String × Value}
    (h : kv ∈ kvs) : sizeOf kv.2 < sizeOf kvs := by
  have h1 := List.sizeOf_lt_of_mem h
  obtain ⟨k, v⟩ := kv
  simp only [Prod.mk.sizeOf_spec] at h1 ⊢
  omega

/-- Structural induction over `Value` with pointwise hypotheses for the
elements of the nested lists. -/
theorem Value.inductionOn (P : Value → Prop)
    (hnull : P .null) (hbool : ∀ b, P (.bool b)) (hint : ∀ n, P (.int n))
    (hstr : ∀ s, P (.str s))
    (hlist : ∀ xs, (∀ x ∈ xs, P x) → P (.list xs))
    (htuple : ∀ xs, (∀ x ∈ xs, P x) → P (.tuple xs))
    (hset : ∀ xs, (∀ x ∈ xs, P x) → P (.set xs))
    (hdict : ∀ kvs, (∀ kv ∈ kvs, P (kv : String × Value).2) → P (.dict kvs))
    (hdt : ∀ d, P (.datetime d))
    (hbytes : ∀ bs, P (.bytes bs))
    (hrecord : ∀ c fs, (∀ kv ∈ fs, P (kv : String × Value).2) → P (.record c fs))
    (hobj : ∀ c fs, (∀ kv ∈ fs, P (kv : String × Value).2) → P (.obj c fs))
    (hell : P .ellipsis) : ∀ v, P v
  | .null => hnull
  | .bool b => hbool b
  | .int n => hint n
  | .str s => hstr s
  | .list xs => hlist xs (fun x hx =>
      have : sizeOf x < 1 + sizeOf xs := by
        have := List.sizeOf_lt_of_mem hx; omega
      Value.inductionOn P hnull hbool hint hstr hlist htuple hset hdict hdt
        hbytes hrecord hobj hell x)
  | .tuple xs => htuple xs (fun x hx =>
      have : sizeOf x < 1 + sizeOf xs := by
        have := List.sizeOf_lt_of_mem hx; omega
      Value.inductionOn P hnull hbool hint hstr hlist htuple hset hdict hdt
        hbytes hrecord hobj hell x)
  | .set xs => hset xs (fun x hx =>
      have : sizeOf x < 1 + sizeOf xs := by
        have := List.sizeOf_lt_of_mem hx; omega
      Value.inductionOn P hnull hbool hint hstr hlist htuple hset hdict hdt
        hbytes hrecord hobj hell x)
  | .dict kvs => hdict kvs (fun kv hkv =>
      have : sizeOf kv.2 < 1 + sizeOf kvs := by
        have := sizeOf_snd_lt hkv; omega
      Value.inductionOn P hnull hbool hint hstr hlist htuple hset hdict hdt
        hbytes hrecord hobj hell kv.2)
  | .datetime d => hdt d
  | .bytes bs => hbytes bs
  | .record c fs => hrecord c fs (fun kv hkv =>
      have : sizeOf kv.2 < 1 + sizeOf c + sizeOf fs := by
        have := sizeOf_snd_lt hkv; omega
      Value.inductionOn P hnull hbool hint hstr hlist htuple hset hdict hdt
        hbytes hrecord hobj hell kv.2)
  | .obj c fs => hobj c fs (fun kv hkv =>
      have : sizeOf kv.2 < 1 + sizeOf c + sizeOf fs := by
        have := sizeOf_snd_lt hkv; omega
      Value.inductionOn P hnull hbool hint hstr hlist htuple hset hdict hdt
        hbytes hrecord hobj hell kv.2)
  | .ellipsis => hell
termination_by v => sizeOf v

/-- Modelled from the spec: the shape of a registrable host type, as an
explicit capability record (spec 4.3, design note in spec 9).  The three
optional capture hooks mirror the state-capture and constructor-args
capture hooks of the object reconstruction protocol; `new` is the type's
constructor, called with positional and keyword arguments; `base` is the
name of the superclass, if any, giving the live subclass graph. -/
structure PyType where
  name : String
  base : Option String := none
  getstate : Option (Value → Value) := none
  setstate : Option (Value → Value) := none
  getnewargsEx : Option (Value → List Value × List (String × Value)) := none
  getnewargs : Option (Value → List Value) := none
  new : List Value → List (String × Value) → Value := fun _ _ => Value.null

/-- Modelled from the spec: a rule predicate is an exact-type match, an
is-instance match against the live class graph, or an arbitrary boolean
test over a host value (spec 3). -/
inductive Pred where
  | exactType (name : String)
  | instanceOf (name : String)
  | callable (f : Value → Bool)

/-- Modelled from the spec: the serialize function of a rule, either a
caller-provided function or one of the two engine defaults (spec 4.3, 4.4). -/
inductive SerFn where
  | custom (f : Value → Value)
  | classDefault (t : PyType)
  | baseclassDefault (base : String)

/-- Modelled from the spec: the deserialize function of a rule (spec 4.3, 4.4). -/
inductive DeserFn where
  | custom (f : Value → Value)
  | classDefault (t : PyType)
  | baseclassDefault (base : String)

/-- Modelled from the spec: one registered serializer rule (spec 3). -/
structure SerRule where
  tag : String
  pred : Pred
  fn : SerFn

/-- Modelled from the spec: the engine state of one `Serialization`
instance: the ordered serializer rules, the tag-indexed deserializers, the
live class graph of the host program, and the lazily grown Record-Type
Table of data-class names seen by serialization (spec 3). -/
structure Serialization where
  serializers : List SerRule := []
  deserializers : List (String × DeserFn) := []
  classes : List PyType := []
  dataclasses : List String := []

/-- Class with the given name in the live class graph. -/
def findClass (cs : List PyType) (n : String) : Option PyType :=
  cs.find? (fun c => c.name == n)

/-- Fuelled walk up the superclass chain of `c` looking for `target`. -/
def chainContains (cs : List PyType) : Nat → String → String → Bool
  | 0, _, _ => false
  | fuel + 1, c, target =>
    if c == target then true
    else
      match findClass cs c with
      | some t =>
        match t.base with
        | some b => chainContains cs fuel b target
        | none => false
      | none => false

/-- Whether class `sub` is `target` or a transitive subclass of it. -/
def issubclass (cs : List PyType) (sub target : String) : Bool :=
  chainContains cs (cs.length + 1) sub target

/-- Whether a host value is an instance of `target` or of a subclass. -/
def isinstance (cs : List PyType) (target : String) (v : Value) : Bool :=
  match v with
  | .obj c _ => issubclass cs c target
  | _ => false

/-- Predicate evaluation against the live class graph. -/
def evalPred (cs : List PyType) : Pred → Value → Bool
  | .exactType n, .obj c _ => c == n
  | .exactType _, _ => false
  | .instanceOf n, v => isinstance cs n v
  | .callable f, v => f v

/-- The transitive proper subclasses of `base` in the live class graph. -/
def subclassesOf (cs : List PyType) (base : String) : List PyType :=
  cs.filter (fun c => c.name != base && issubclass cs c.name base)

/-- Modelled from the spec: the fixed built-in tags and their order
(spec 6): the timestamp tag, the byte-string tag and the shared
record-type tag, pinned to "datetime", "bytes" and "dataclass" by the
test suite. -/
def builtin_tags : List String := ["datetime", "bytes", "dataclass"]

/-- Tags of the registered serializer rules, in registration order. -/
def serializer_tags (s : Serialization) : List String :=
  s.serializers.map (fun r => r.tag)

/-- Tags of the registered deserializers, in registration order. -/
def deserializer_tags (s : Serialization) : List String :=
  s.deserializers.map (fun e => e.1)

/-- Whether a mapping key is a currently-known tag, built-in or registered. -/
def is_known_tag (s : Serialization) (k : String) : Bool :=
  builtin_tags.contains k || (deserializer_tags s).contains k

/-- All currently available serializer tags, for error messages. -/
def available_serializers (s : Serialization) : List String :=
  builtin_tags ++ serializer_tags s

/-- All currently available deserializer tags, for error messages. -/
def available_deserializers (s : Serialization) : List String :=
  builtin_tags ++ deserializer_tags s

/-- First registered serializer tag with no deserializer, if any: the
imbalance that blocks `deserialize` (spec 7). -/
def missing_deserializer (s : Serialization) : Option String :=
  (serializer_tags s).find? (fun t => !(deserializer_tags s).contains t)

/-- First registered deserializer tag with no serializer, if any: the
imbalance that blocks `serialize` (spec 7). -/
def missing_serializer (s : Serialization) : Option String :=
  (deserializer_tags s).find? (fun t => !(serializer_tags s).contains t)

/-- Modelled from the spec: the error kinds of the engine (spec 7).
`noRule` is NoRuleError; `noDeserializer`, `noSubclass` and `noDataclass`
are the three faces of UnknownTagError; `noSerializers` and
`noDeserializers` are RegistryImbalanceError for the two directions;
`noSerialization` is UnknownRemovalError; `malformed` is the payload-shape
failure of a tag's deserialize function. -/
inductive Err where
  | noRule (available : List String)
  | noDeserializer (tag : String) (available : List String)
  | noSubclass (base : String) (name : String) (available : List String)
  | noDataclass (name : String) (available : List String)
  | noSerializers (tag : String)
  | noDeserializers (tag : String)
  | noSerialization (tag : String) (available : List String)
  | malformed (tag : String)

/-- Whether an error is an UnknownTagError (spec 7 groups the unknown-tag,
unknown-subclass and unknown-record-type failures under one error kind). -/
def is_unknown_tag_error : Err → Bool
  | .noDeserializer _ _ => true
  | .noSubclass _ _ _ => true
  | .noDataclass _ _ => true
  | _ => false

/-- Modelled from the spec: the rendered message of each error, with every
"available ..." clause built by the list-formatting utility `concat`
(spec 4.6, 7; shapes pinned by the test suite). -/
def error_message : Err → String
  | .noRule avail =>
    "unable to serialize data: only none, booleans, integers, floats, " ++
    "strings and serializable values are allowed, as well as lists, " ++
    "tuples, sets or dictionaries thereof (available serializers are " ++
    concat avail ++ ")"
  | .noDeserializer tag avail =>
    "no " ++ tag ++ " deserializer (available deserializers are " ++
    concat avail ++ ")"
  | .noSubclass base name avail =>
    base ++ " has no subclass " ++ name ++ " (available subclasses are " ++
    concat avail ++ ")"
  | .noDataclass name avail =>
    "no " ++ name ++ " data class (available data classes are " ++
    concat avail ++ ")"
  | .noSerializers tag => "no serializers for " ++ tag
  | .noDeserializers tag => "no deserializers for " ++ tag
  | .noSerialization tag avail =>
    "no " ++ tag ++ " serialization (available serializations are " ++
    concat avail ++ ")"
  | .malformed tag => "invalid " ++ tag ++ " payload"

/-- Adding a record-type name to the Record-Type Table, first sighting only. -/
def remember (n : String) (tbl : List String) : List String :=
  if tbl.contains n then tbl else tbl ++ [n]

/-- First value under the given key of an association list. -/
def lookupKey (kvs : List (String × Value)) (k : String) : Option Value :=
  (kvs.find? (fun kv => kv.1 == k)).map (fun kv => kv.2)

/-- Association list without the entries under the given key. -/
def removeKey (kvs : List (String × Value)) (k : String) : List (String × Value) :=
  kvs.filter (fun kv => kv.1 != k)

mutual

/-- Modelled from the spec: the recursive serialization worker (spec 4.2).
Built-in handlers come first in their fixed order: passthrough scalars,
the three ordered containers (all normalized to `list`), string-keyed
mappings (keys kept, values deep-converted), timestamps, byte-strings;
then record-type auto-detection, remembering the type name in the
Record-Type Table `tbl`; then the registered rules in registration order,
first matching predicate winning, a class-default rule choosing the first
applicable capture strategy (state, then positional-plus-keyword args,
then positional args, then attribute reflection) and a baseclass-default
rule reflecting attributes and injecting the runtime class name; and
failing with NoRuleError when nothing matches. -/
def ser (s : Serialization) (tbl : List String) :
    Value → Except Err (Value × List String)
  | .null => .ok (.null, tbl)
  | .bool b => .ok (.bool b, tbl)
  | .int n => .ok (.int n, tbl)
  | .str t => .ok (.str t, tbl)
  | .list xs => do
    let (ys, tbl') ← serSeq s tbl xs
    .ok (.list ys, tbl')
  | .tuple xs => do
    let (ys, tbl') ← serSeq s tbl xs
    .ok (.list ys, tbl')
  | .set xs => do
    let (ys, tbl') ← serSeq s tbl xs
    .ok (.list ys, tbl')
  | .dict kvs => do
    let (kvs', tbl') ← serFields s tbl kvs
    .ok (.dict kvs', tbl')
  | .datetime d => .ok (.dict [("datetime", .str (isoformat (astimezone d)))], tbl)
  | .bytes bs => .ok (.dict [("bytes", .str (base64encode bs))], tbl)
  | .record n fs => do
    let (fs', tbl') ← serFields s tbl fs
    .ok (.dict [("dataclass", .dict (("class", .str n) :: fs'))], remember n tbl')
  | v => do
    match s.serializers.find? (fun r => evalPred s.classes r.pred v) with
    | none => .error (.noRule (available_serializers s))
    | some r =>
      match r.fn with
      | .custom f => .ok (.dict [(r.tag, f v)], tbl)
      | .classDefault t =>
        match t.getstate with
        | some g => .ok (.dict [(r.tag, .dict [("state", g v)])], tbl)
        | none =>
          match t.getnewargsEx with
          | some g =>
            let (args, kwargs) := g v
            .ok (.dict [(r.tag, .dict [("args", .list [.list args, .dict kwargs])])], tbl)
          | none =>
            match t.getnewargs with
            | some g => .ok (.dict [(r.tag, .dict [("args", .list (g v))])], tbl)
            | none =>
              match v with
              | .obj _ attrs => do
                let (attrs', tbl') ← serFields s tbl attrs
                .ok (.dict [(r.tag, .dict attrs')], tbl')
              | _ => .error (.malformed r.tag)
      | .baseclassDefault _ =>
        match v with
        | .obj c attrs => do
          let (attrs', tbl') ← serFields s tbl attrs
          .ok (.dict [(r.tag, .dict (("class", .str c) :: attrs'))], tbl')
        | _ => .error (.malformed r.tag)

/-- Serialization of the elements of an ordered container, left to right,
threading the Record-Type Table. -/
def serSeq (s : Serialization) (tbl : List String) :
    List Value → Except Err (List Value × List String)
  | [] => .ok ([], tbl)
  | x :: xs => do
    let (y, tbl') ← ser s tbl x
    let (ys, tbl'') ← serSeq s tbl' xs
    .ok (y :: ys, tbl'')

/-- Serialization of the values of a string-keyed mapping, keys kept,
threading the Record-Type Table. -/
def serFields (s : Serialization) (tbl : List String) :
    List (String × Value) → Except Err (List (String × Value) × List String)
  | [] => .ok ([], tbl)
  | (k, v) :: kvs => do
    let (w, tbl') ← ser s tbl v
    let (kvs', tbl'') ← serFields s tbl' kvs
    .ok ((k, w) :: kvs', tbl'')

end

/-- Modelled from the spec: the single-level, non-recursive primitive
behind `serialize_value` (spec 4.4): it drives one tag's rule, returning
the matched tag and payload, or the no-match sentinel `none` instead of
raising.  The built-in timestamp and byte-string handlers and the
record-type detector are consulted before the registered rules. -/
def ser_value (s : Serialization) (tbl : List String) (v : Value) :
    Except Err (Option (String × Value) × List String) :=
  match v with
  | .datetime d => .ok (some ("datetime", .str (isoformat (astimezone d))), tbl)
  | .bytes bs => .ok (some ("bytes", .str (base64encode bs)), tbl)
  | .record n fs => do
    let (fs', tbl') ← serFields s tbl fs
    .ok (some ("dataclass", .dict (("class", .str n) :: fs')), remember n tbl')
  | v =>
    match s.serializers.find? (fun r => evalPred s.classes r.pred v) with
    | none => .ok (none, tbl)
    | some r =>
      match r.fn with
      | .custom f => .ok (some (r.tag, f v), tbl)
      | .classDefault t =>
        match t.getstate with
        | some g => .ok (some (r.tag, .dict [("state", g v)]), tbl)
        | none =>
          match t.getnewargsEx with
          | some g =>
            let (args, kwargs) := g v
            .ok (some (r.tag, .dict [("args", .list [.list args, .dict kwargs])]), tbl)
          | none =>
            match t.getnewargs with
            | some g => .ok (some (r.tag, .dict [("args", .list (g v))]), tbl)
            | none =>
              match v with
              | .obj _ attrs => do
                let (attrs', tbl') ← serFields s tbl attrs
                .ok (some (r.tag, .dict attrs'), tbl')
              | _ => .error (.malformed r.tag)
      | .baseclassDefault _ =>
        match v with
        | .obj c attrs => do
          let (attrs', tbl') ← serFields s tbl attrs
          .ok (some (r.tag, .dict (("class", .str c) :: attrs')), tbl')
        | _ => .error (.malformed r.tag)

/-- Modelled from the spec: decoding one tag's payload, applied to the
already recursively deserialized payload (spec 4.1-4.5).  The built-in
tags come first: a timestamp parses its ISO-8601 payload, a byte-string
decodes its base64 payload, the record-type tag looks the "class" name up
in the Record-Type Table and rebuilds the record from the remaining
fields, failing with UnknownTagError for an unknown name.  A registered
tag applies its deserialize function: the class default mirrors the
serializer's strategy priority (a "state" key routes through the
state-apply hook on a constructor-bypassed instance, an "args" pair or
list calls the constructor, otherwise the flat mapping is set as
attributes on a constructor-bypassed instance); the baseclass default
reads "class", resolves the named transitive subclass of the registered
base in the live class graph, and calls it with the remaining fields as
keyword arguments, failing with UnknownTagError when no subclass has that
name.  An unregistered tag fails with UnknownTagError. -/
def decodePayload (s : Serialization) (tbl : List String) (k : String)
    (p : Value) : Except Err Value :=
  if k == "datetime" then
    match p with
    | .str t =>
      match fromisoformat t with
      | some d => .ok (.datetime d)
      | none => .error (.malformed "datetime")
    | _ => .error (.malformed "datetime")
  else if k == "bytes" then
    match p with
    | .str t =>
      match base64decode t with
      | some bs => .ok (.bytes bs)
      | none => .error (.malformed "bytes")
    | _ => .error (.malformed "bytes")
  else if k == "dataclass" then
    match p with
    | .dict kvs =>
      match lookupKey kvs "class" with
      | some (.str n) =>
        if tbl.contains n then .ok (.record n (removeKey kvs "class"))
        else .error (.noDataclass n tbl)
      | _ => .error (.malformed "dataclass")
    | _ => .error (.malformed "dataclass")
  else
    match s.deserializers.find? (fun e => e.1 == k) with
    | none => .error (.noDeserializer k (available_deserializers s))
    | some e =>
      match e.2 with
      | .custom f => .ok (f p)
      | .classDefault t =>
        match p with
        | .dict kvs =>
          match lookupKey kvs "state" with
          | some st =>
            match t.setstate with
            | some f => .ok (f st)
            | none => .error (.malformed k)
          | none =>
            match lookupKey kvs "args" with
            | some (.list [.list args, .dict kwargs]) => .ok (t.new args kwargs)
            | some (.list args) => .ok (t.new args [])
            | some _ => .error (.malformed k)
            | none => .ok (.obj t.name kvs)
        | _ => .error (.malformed k)
      | .baseclassDefault base =>
        match p with
        | .dict kvs =>
          match lookupKey kvs "class" with
          | some (.str n) =>
            match (subclassesOf s.classes base).find? (fun c => c.name == n) with
            | some t => .ok (t.new [] (removeKey kvs "class"))
            | none =>
              .error (.noSubclass base n
                ((subclassesOf s.classes base).map (fun c => c.name)))
          | _ => .error (.malformed base)
        | _ => .error (.malformed base)

mutual

/-- Modelled from the spec: the recursive deserialization worker
(spec 4.2).  A mapping with exactly one key that is a known tag has its
payload recursively deserialized below the payload root and is then
decoded through that tag's deserialize function; any other mapping keeps
its keys and deep-deserializes its values; a sequence deep-deserializes
its elements; anything else is returned unchanged. -/
def deser (s : Serialization) (tbl : List String) : Value → Except Err Value
  | .dict [(k, p)] =>
    if is_known_tag s k then do
      let q ← deserPayload s tbl p
      decodePayload s tbl k q
    else do
      let q ← deser s tbl p
      .ok (.dict [(k, q)])
  | .dict kvs => do
    let kvs' ← deserFields s tbl kvs
    .ok (.dict kvs')
  | .list xs => do
    let ys ← deserSeq s tbl xs
    .ok (.list ys)
  | .tuple xs => do
    let ys ← deserSeq s tbl xs
    .ok (.list ys)
  | v => .ok v

/-- Recursive deserialization below a tag payload's root: a mapping
payload deep-deserializes its values keeping keys, a sequence payload its
elements, and a scalar payload is passed through; decoding of the payload
root itself is left to the tag's deserialize function. -/
def deserPayload (s : Serialization) (tbl : List String) :
    Value → Except Err Value
  | .dict kvs => do
    let kvs' ← deserFields s tbl kvs
    .ok (.dict kvs')
  | .list xs => do
    let ys ← deserSeq s tbl xs
    .ok (.list ys)
  | v => .ok v

/-- Deserialization of the elements of a sequence. -/
def deserSeq (s : Serialization) (tbl : List String) :
    List Value → Except Err (List Value)
  | [] => .ok []
  | x :: xs => do
    let y ← deser s tbl x
    let ys ← deserSeq s tbl xs
    .ok (y :: ys)

/-- Deserialization of the values of a mapping, keys kept. -/
def deserFields (s : Serialization) (tbl : List String) :
    List (String × Value) → Except Err (List (String × Value))
  | [] => .ok []
  | (k, v) :: kvs => do
    let w ← deser s tbl v
    let kvs' ← deserFields s tbl kvs
    .ok ((k, w) :: kvs')

end

/-- Modelled from the spec: the top-level `serialize` (spec 4.2, 6, 7).
The registry-imbalance guard runs at entry; on success the possibly grown
Record-Type Table is written back into the engine state. -/
def serialize (s : Serialization) (v : Value) :
    Except Err (Value × Serialization) :=
  match missing_serializer s with
  | some t => .error (.noSerializers t)
  | none => do
    let (w, tbl') ← ser s s.dataclasses v
    .ok (w, { s with dataclasses := tbl' })

/-- Modelled from the spec: the top-level `deserialize` (spec 4.2, 6, 7),
with the registry-imbalance guard at entry. -/
def deserialize (s : Serialization) (v : Value) : Except Err Value :=
  match missing_deserializer s with
  | some t => .error (.noDeserializers t)
  | none => deser s s.dataclasses v

/-- Modelled from the spec: the top-level `serialize_value` (spec 4.4, 6):
the single-level primitive, returning the no-match sentinel pair rather
than raising, but still guarded by the registry-imbalance check. -/
def serialize_value (s : Serialization) (v : Value) :
    Except Err (Option (String × Value) × Serialization) :=
  match missing_serializer s with
  | some t => .error (.noSerializers t)
  | none => do
    let (r, tbl') ← ser_value s s.dataclasses v
    .ok (r, { s with dataclasses := tbl' })

/-- Modelled from the spec: the top-level `deserialize_value` (spec 4.4,
6): decoding one tag's payload directly, failing with UnknownTagError for
an unknown tag. -/
def deserialize_value (s : Serialization) (tag : String) (p : Value) :
    Except Err Value :=
  decodePayload s s.dataclasses tag p

/-- Modelled from the spec: registering one serializer direction
(spec 4.5). -/
def Serialization.serializer (s : Serialization) (tag : String) (pred : Pred)
    (fn : SerFn) : Serialization :=
  { s with serializers := s.serializers ++ [⟨tag, pred, fn⟩] }

/-- Modelled from the spec: registering one deserializer direction
(spec 4.5). -/
def Serialization.deserializer (s : Serialization) (tag : String)
    (fn : DeserFn) : Serialization :=
  { s with deserializers := s.deserializers ++ [(tag, fn)] }

/-- Modelled from the spec: registering both directions atomically
(spec 4.5). -/
def Serialization.add (s : Serialization) (tag : String) (pred : Pred)
    (sfn : SerFn) (dfn : DeserFn) : Serialization :=
  (s.serializer tag pred sfn).deserializer tag dfn

/-- Modelled from the spec: `add_class` registers tag = the type's name and
an exact-type predicate, with the class-default functions standing in when
no override is given (spec 4.3). -/
def Serialization.add_class (s : Serialization) (t : PyType) : Serialization :=
  s.add t.name (.exactType t.name) (.classDefault t) (.classDefault t)

/-- Modelled from the spec: `add_baseclass` registers tag = the base type's
name and an is-instance predicate, with the baseclass-default functions
standing in when no override is given (spec 4.4). -/
def Serialization.add_baseclass (s : Serialization) (t : PyType) : Serialization :=
  s.add t.name (.instanceOf t.name) (.baseclassDefault t.name)
    (.baseclassDefault t.name)

/-- Modelled from the spec: `remove` deletes both directions of a tag,
failing with UnknownRemovalError when the tag has no rule at all
(spec 4.5, 7). -/
def Serialization.remove (s : Serialization) (tag : String) :
    Except Err Serialization :=
  if (serializer_tags s).contains tag || (deserializer_tags s).contains tag then
    .ok { s with
      serializers := s.serializers.filter (fun r => r.tag != tag),
      deserializers := s.deserializers.filter (fun e => e.1 != tag) }
  else
    .error (.noSerialization tag (serializer_tags s ++ deserializer_tags s))

mutual

/-- The canonical image of a host value under one round trip: ordered
containers of every kind become lists, and a naive timestamp becomes its
local-timezone-attributed equivalent (spec 4.1, 8). -/
def canon : Value → Value
  | .null => .null
  | .bool b => .bool b
  | .int n => .int n
  | .str t => .str t
  | .list xs => .list (canonSeq xs)
  | .tuple xs => .list (canonSeq xs)
  | .set xs => .list (canonSeq xs)
  | .dict kvs => .dict (canonFields kvs)
  | .datetime d => .datetime (astimezone d)
  | .bytes bs => .bytes bs
  | .record n fs => .record n (canonFields fs)
  | .obj c attrs => .obj c (canonFields attrs)
  | .ellipsis => .ellipsis

/-- Elementwise canonical image of a sequence. -/
def canonSeq : List Value → List Value
  | [] => []
  | x :: xs => canon x :: canonSeq xs

/-- Valuewise canonical image of a mapping, keys kept. -/
def canonFields : List (String × Value) → List (String × Value)
  | [] => []
  | (k, v) :: kvs => (k, canon v) :: canonFields kvs

end

mutual

/-- Whether a host value is free of the two shapes whose round trip is
lossy beyond the documented container normalization: a mapping with
exactly one key equal to a built-in tag (which deserialization would
reinterpret as a tag wrapper, spec 3 and 9) and a record field named
"class" (which would collide with the record wrapper's injected class
field). -/
def round_safe : Value → Bool
  | .list xs => roundSafeSeq xs
  | .tuple xs => roundSafeSeq xs
  | .set xs => roundSafeSeq xs
  | .dict kvs =>
    (match kvs with
     | [(k, _)] => !builtin_tags.contains k
     | _ => true) && roundSafeFields kvs
  | .record _ fs => fs.all (fun kv => kv.1 != "class") && roundSafeFields fs
  | .obj _ attrs => roundSafeFields attrs
  | _ => true

/-- Elementwise round-safety of a sequence. -/
def roundSafeSeq : List Value → Bool
  | [] => true
  | x :: xs => round_safe x && roundSafeSeq xs

/-- Valuewise round-safety of a mapping. -/
def roundSafeFields : List (String × Value) → Bool
  | [] => true
  | (_, v) :: kvs => round_safe v && roundSafeFields kvs

end

mutual

/-- Whether a value lies in the plain wire fragment: built from `null`,
booleans, integers, strings, lists and string-keyed mappings only, so that
serialization passes it through unchanged. -/
def flat : Value → Bool
  | .null => true
  | .bool _ => true
  | .int _ => true
  | .str _ => true
  | .list xs => flatSeq xs
  | .dict kvs => flatFields kvs
  | _ => false

/-- Elementwise flatness of a sequence. -/
def flatSeq : List Value → Bool
  | [] => true
  | x :: xs => flat x && flatSeq xs

/-- Valuewise flatness of a mapping. -/
def flatFields : List (String × Value) → Bool
  | [] => true
  | (_, v) :: kvs => flat v && flatFields kvs

end

mutual

/-- Whether a wire value contains no mapping with exactly one key that is
a currently-known tag of the engine `s`, and no tuple-shaped container:
exactly the values `deserialize` returns unchanged. -/
def no_wrapper (s : Serialization) : Value → Bool
  | .dict kvs =>
    (match kvs with
     | [(k, _)] => !is_known_tag s k
     | _ => true) && noWrapperFields s kvs
  | .list xs => noWrapperSeq s xs
  | .tuple _ => false
  | _ => true

/-- Elementwise wrapper-freeness of a sequence. -/
def noWrapperSeq (s : Serialization) : List Value → Bool
  | [] => true
  | x :: xs => no_wrapper s x && noWrapperSeq s xs

/-- Valuewise wrapper-freeness of a mapping. -/
def noWrapperFields (s : Serialization) : List (String × Value) → Bool
  | [] => true
  | (_, v) :: kvs => no_wrapper s v && noWrapperFields s kvs

end

theorem exceptOkBind {a b : Type} (x : a) (f : a → Except Err b) :
    (Except.ok x >>= f) = f x := rfl

theorem exceptErrBind {a b : Type} (e : Err) (f : a → Except Err b) :
    ((Except.error e : Except Err a) >>= f) = Except.error e := rfl

theorem exceptBindOkIff {a b : Type} {e : Except Err a} {f : a → Except Err b}
    {r : b} :
    (e >>= f = Except.ok r) ↔ ∃ x, e = Except.ok x ∧ f x = Except.ok r := by
  cases e with
  | error err => simp [Bind.bind, Except.bind]
  | ok x => simp [Bind.bind, Except.bind]

theorem string_contains_iff {l : List String} {x : String} :
    l.contains x = true ↔ x ∈ l := by
  induction l with
  | nil => simp
  | cons y ys ih =>
    simp only [List.contains_cons, Bool.or_eq_true, beq_iff_eq, ih,
      List.mem_cons]

theorem subset_remember (n : String) (tbl : List String) : tbl ⊆ remember n tbl := by
  rw [remember]
  split
  · exact List.Subset.refl tbl
  · exact List.subset_append_left tbl [n]

theorem mem_remember (n : String) (tbl : List String) : n ∈ remember n tbl := by
  rw [remember]
  split
  · next h => exact string_contains_iff.1 h
  · simp

theorem roundSafeSeq_mem {xs : List Value} (h : roundSafeSeq xs = true) :
    ∀ x ∈ xs, round_safe x = true := by
  induction xs with
  | nil => simp
  | cons x xs ih =>
    rw [roundSafeSeq, Bool.and_eq_true] at h
    intro y hy
    rcases List.mem_cons.1 hy with rfl | hy
    · exact h.1
    · exact ih h.2 y hy

theorem roundSafeFields_mem {kvs : List (String × Value)}
    (h : roundSafeFields kvs = true) : ∀ kv ∈ kvs, round_safe (kv : String × Value).2 = true := by
  induction kvs with
  | nil => simp
  | cons kv kvs ih =>
    obtain ⟨k, v⟩ := kv
    rw [roundSafeFields, Bool.and_eq_true] at h
    intro kv2 hkv2
    rcases List.mem_cons.1 hkv2 with rfl | hkv2
    · exact h.1
    · exact ih h.2 kv2 hkv2

theorem canonFields_fst (kvs : List (String × Value)) :
    (canonFields kvs).map (fun kv => kv.1) = kvs.map (fun kv => kv.1) := by
  induction kvs with
  | nil => rfl
  | cons kv kvs ih =>
    obtain ⟨k, v⟩ := kv
    simp [canonFields, ih]

theorem flatSeq_mem {xs : List Value} (h : flatSeq xs = true) :
    ∀ x ∈ xs, flat x = true := by
  induction xs with
  | nil => simp
  | cons x xs ih =>
    rw [flatSeq, Bool.and_eq_true] at h
    intro y hy
    rcases List.mem_cons.1 hy with rfl | hy
    · exact h.1
    · exact ih h.2 y hy

theorem flatFields_mem {kvs : List (String × Value)} (h : flatFields kvs = true) :
    ∀ kv ∈ kvs, flat (kv : String × Value).2 = true := by
  induction kvs with
  | nil => simp
  | cons kv kvs ih =>
    obtain ⟨k, v⟩ := kv
    rw [flatFields, Bool.and_eq_true] at h
    intro kv2 hkv2
    rcases List.mem_cons.1 hkv2 with rfl | hkv2
    · exact h.1
    · exact ih h.2 kv2 hkv2

theorem noWrapperSeq_mem {s : Serialization} {xs : List Value}
    (h : noWrapperSeq s xs = true) : ∀ x ∈ xs, no_wrapper s x = true := by
  induction xs with
  | nil => simp
  | cons x xs ih =>
    rw [noWrapperSeq, Bool.and_eq_true] at h
    intro y hy
    rcases List.mem_cons.1 hy with rfl | hy
    · exact h.1
    · exact ih h.2 y hy

theorem noWrapperFields_mem {s : Serialization} {kvs : List (String × Value)}
    (h : noWrapperFields s kvs = true) :
    ∀ kv ∈ kvs, no_wrapper s (kv : String × Value).2 = true := by
  induction kvs with
  | nil => simp
  | cons kv kvs ih =>
    obtain ⟨k, v⟩ := kv
    rw [noWrapperFields, Bool.and_eq_true] at h
    intro kv2 hkv2
    rcases List.mem_cons.1 hkv2 with rfl | hkv2
    · exact h.1
    · exact ih h.2 kv2 hkv2

theorem serSeq_of_pointwise {s : Serialization} {xs : List Value}
    (h : ∀ x ∈ xs, ∀ tbl, ser s tbl x = .ok (x, tbl)) :
    ∀ tbl, serSeq s tbl xs = .ok (xs, tbl) := by
  induction xs with
  | nil => intro tbl; rfl
  | cons x xs ih =>
    intro tbl
    simp only [serSeq, h x (by simp) tbl, exceptOkBind,
      ih (fun y hy => h y (by simp [hy])) tbl]

theorem serFields_of_pointwise {s : Serialization} {kvs : List (String × Value)}
    (h : ∀ kv ∈ kvs, ∀ tbl, ser s tbl (kv : String × Value).2 = .ok (kv.2, tbl)) :
    ∀ tbl, serFields s tbl kvs = .ok (kvs, tbl) := by
  induction kvs with
  | nil => intro tbl; rfl
  | cons kv kvs ih =>
    obtain ⟨k, v⟩ := kv
    intro tbl
    simp only [serFields, h (k, v) (by simp) tbl, exceptOkBind,
      ih (fun kv2 hkv2 => h kv2 (by simp [hkv2])) tbl]

/-- Serialization passes every plain wire value through unchanged, in any
engine state, leaving the Record-Type Table alone (spec 4.1: passthrough
built-ins come first). -/
theorem ser_flat (s : Serialization) :
    ∀ v, flat v = true → ∀ tbl, ser s tbl v = .ok (v, tbl) := by
  intro v
  induction v using Value.inductionOn with
  | hnull => intro _ _; rfl
  | hbool b => intro _ _; rfl
  | hint n => intro _ _; rfl
  | hstr t => intro _ _; rfl
  | hlist xs ih =>
    intro h tbl
    rw [flat] at h
    rw [ser, serSeq_of_pointwise (fun x hx => ih x hx (flatSeq_mem h x hx)),
      exceptOkBind]
  | htuple xs ih => intro h _; simp [flat] at h
  | hset xs ih => intro h _; simp [flat] at h
  | hdict kvs ih =>
    intro h tbl
    rw [flat] at h
    rw [ser, serFields_of_pointwise (fun kv hkv => ih kv hkv (flatFields_mem h kv hkv)),
      exceptOkBind]
  | hdt d => intro h _; simp [flat] at h
  | hbytes bs => intro h _; simp [flat] at h
  | hrecord c fs ih => intro h _; simp [flat] at h
  | hobj c fs ih => intro h _; simp [flat] at h
  | hell => intro h _; simp [flat] at h

theorem deserSeq_of_pointwise {s : Serialization} {xs : List Value}
    (h : ∀ x ∈ xs, ∀ tbl, deser s tbl x = .ok x) :
    ∀ tbl, deserSeq s tbl xs = .ok xs := by
  induction xs with
  | nil => intro tbl; rfl
  | cons x xs ih =>
    intro tbl
    simp only [deserSeq, h x (by simp) tbl, exceptOkBind,
      ih (fun y hy => h y (by simp [hy])) tbl]

theorem deserFields_of_pointwise {s : Serialization} {kvs : List (String × Value)}
    (h : ∀ kv ∈ kvs, ∀ tbl, deser s tbl (kv : String × Value).2 = .ok kv.2) :
    ∀ tbl, deserFields s tbl kvs = .ok kvs := by
  induction kvs with
  | nil => intro tbl; rfl
  | cons kv kvs ih =>
    obtain ⟨k, v⟩ := kv
    intro tbl
    simp only [deserFields, h (k, v) (by simp) tbl, exceptOkBind,
      ih (fun kv2 hkv2 => h kv2 (by simp [hkv2])) tbl]

/-- Deserialization returns unchanged every value that contains no one-key
mapping under a currently-known tag and no tuple-shaped container
(spec 4.2: only recognized tag wrappers are decoded). -/
theorem deser_no_wrapper (s : Serialization) :
    ∀ v, no_wrapper s v = true → ∀ tbl, deser s tbl v = .ok v := by
  intro v
  induction v using Value.inductionOn with
  | hnull => intro _ _; rfl
  | hbool b => intro _ _; rfl
  | hint n => intro _ _; rfl
  | hstr t => intro _ _; rfl
  | hlist xs ih =>
    intro h tbl
    rw [no_wrapper] at h
    rw [deser, deserSeq_of_pointwise (fun x hx => ih x hx (noWrapperSeq_mem h x hx)),
      exceptOkBind]
  | htuple xs ih => intro h _; simp [no_wrapper] at h
  | hset xs ih => intro _ _; rfl
  | hdict kvs ih =>
    intro h tbl
    cases kvs with
    | nil => rfl
    | cons kv rest =>
      obtain ⟨k, p⟩ := kv
      cases rest with
      | nil =>
        simp only [no_wrapper, Bool.and_eq_true, Bool.not_eq_true'] at h
        obtain ⟨h1, h2⟩ := h
        have hvals : ∀ tbl2, deser s tbl2 p = .ok p :=
          fun tbl2 => ih (k, p) (by simp)
            (noWrapperFields_mem h2 (k, p) (by simp)) tbl2
        rw [deser, h1]
        simp only [Bool.false_eq_true, if_false]
        rw [hvals tbl, exceptOkBind]
      | cons kv2 rest2 =>
        simp only [no_wrapper, Bool.true_and] at h
        have hvals : ∀ kv ∈ (k, p) :: kv2 :: rest2,
            ∀ tbl2, deser s tbl2 (kv : String × Value).2 = .ok kv.2 :=
          fun kv hkv tbl2 => ih kv hkv (noWrapperFields_mem h kv hkv) tbl2
        simp only [deser, deserFields_of_pointwise hvals tbl, exceptOkBind]
  | hdt d => intro _ _; rfl
  | hbytes bs => intro _ _; rfl
  | hrecord c fs ih => intro _ _; rfl
  | hobj c fs ih => intro _ _; rfl
  | hell => intro _ _; rfl

theorem is_known_tag_of_empty {s : Serialization} (hd : s.deserializers = [])
    (k : String) : is_known_tag s k = builtin_tags.contains k := by
  simp [is_known_tag, deserializer_tags, hd]

theorem canonFields_eq_map (kvs : List (String × Value)) :
    canonFields kvs = kvs.map (fun kv => (kv.1, canon kv.2)) := by
  induction kvs with
  | nil => rfl
  | cons kv kvs ih =>
    obtain ⟨k, v⟩ := kv
    simp [canonFields, ih]

theorem removeKey_class_canonFields {fs : List (String × Value)} {x : Value}
    (hnoclass : fs.all (fun kv => kv.1 != "class") = true) :
    removeKey (("class", x) :: canonFields fs) "class" = canonFields fs := by
  rw [removeKey, List.filter_cons]
  simp only [bne_self_eq_false, Bool.false_eq_true, if_false]
  apply List.filter_eq_self.2
  intro kv hkv
  rw [canonFields_eq_map] at hkv
  rcases List.mem_map.1 hkv with ⟨kv0, hkv0, rfl⟩
  exact List.all_eq_true.1 hnoclass kv0 hkv0

/-- One value round-trips in the given engine: a successful serialization
only grows the Record-Type Table, and deserializing the produced wire
value in any rule-free engine whose table extends the grown one yields the
canonical image of the value. -/
def RoundTrips (s : Serialization) (v : Value) : Prop :=
  ∀ tbl w tbl', ser s tbl v = .ok (w, tbl') →
    tbl ⊆ tbl' ∧
    ∀ (s2 : Serialization) (tbl2 : List String), s2.deserializers = [] →
      tbl' ⊆ tbl2 → deser s2 tbl2 w = .ok (canon v)

theorem rt_seq (s : Serialization) (xs : List Value)
    (hxs : ∀ x ∈ xs, round_safe x = true → RoundTrips s x)
    (hsafe : roundSafeSeq xs = true) :
    ∀ tbl ys tbl', serSeq s tbl xs = .ok (ys, tbl') →
      tbl ⊆ tbl' ∧
      ∀ (s2 : Serialization) (tbl2 : List String), s2.deserializers = [] →
        tbl' ⊆ tbl2 → deserSeq s2 tbl2 ys = .ok (canonSeq xs) := by
  induction xs with
  | nil =>
    intro tbl ys tbl' h
    rw [serSeq] at h
    cases h
    exact ⟨List.Subset.refl _, fun s2 tbl2 _ _ => rfl⟩
  | cons x xs ih =>
    intro tbl ys tbl' h
    rw [roundSafeSeq, Bool.and_eq_true] at hsafe
    simp only [serSeq, exceptBindOkIff] at h
    obtain ⟨⟨y, t1⟩, hser, ⟨ys2, t2⟩, hseq, hfin⟩ := h
    cases hfin
    obtain ⟨hm1, hd1⟩ := hxs x (by simp) hsafe.1 tbl y t1 hser
    obtain ⟨hm2, hd2⟩ :=
      ih (fun z hz => hxs z (by simp [hz])) hsafe.2 t1 ys2 t2 hseq
    refine ⟨hm1.trans hm2, fun s2 tbl2 hds hsub => ?_⟩
    simp only [deserSeq, hd1 s2 tbl2 hds (hm2.trans hsub), exceptOkBind,
      hd2 s2 tbl2 hds hsub, canonSeq]

theorem rt_fields (s : Serialization) (kvs : List (String × Value))
    (hkvs : ∀ kv ∈ kvs, round_safe (kv : String × Value).2 = true → RoundTrips s kv.2)
    (hsafe : roundSafeFields kvs = true) :
    ∀ tbl kvs' tbl', serFields s tbl kvs = .ok (kvs', tbl') →
      kvs'.map (fun kv => kv.1) = kvs.map (fun kv => kv.1) ∧
      tbl ⊆ tbl' ∧
      ∀ (s2 : Serialization) (tbl2 : List String), s2.deserializers = [] →
        tbl' ⊆ tbl2 → deserFields s2 tbl2 kvs' = .ok (canonFields kvs) := by
  induction kvs with
  | nil =>
    intro tbl kvs' tbl' h
    rw [serFields] at h
    cases h
    exact ⟨rfl, List.Subset.refl _, fun s2 tbl2 _ _ => rfl⟩
  | cons kv kvs ih =>
    obtain ⟨k, v⟩ := kv
    intro tbl kvs' tbl' h
    rw [roundSafeFields, Bool.and_eq_true] at hsafe
    simp only [serFields, exceptBindOkIff] at h
    obtain ⟨⟨w1, t1⟩, hser, ⟨kvs2, t2⟩, hflds, hfin⟩ := h
    cases hfin
    obtain ⟨hm1, hd1⟩ := hkvs (k, v) (by simp) hsafe.1 tbl w1 t1 hser
    obtain ⟨hkeys, hm2, hd2⟩ :=
      ih (fun z hz => hkvs z (by simp [hz])) hsafe.2 t1 kvs2 t2 hflds
    refine ⟨by simp [hkeys], hm1.trans hm2, fun s2 tbl2 hds hsub => ?_⟩
    simp only [deserFields, hd1 s2 tbl2 hds (hm2.trans hsub), exceptOkBind,
      hd2 s2 tbl2 hds hsub, canonFields]

/-- The round-trip law in an engine with no registered serializer rules:
every round-safe value that serializes successfully deserializes back to
its canonical image, in any rule-free engine state whose Record-Type Table
extends the one grown by the serialization. -/
theorem round_trip_core (s : Serialization) (hs : s.serializers = []) :
    ∀ v, round_safe v = true → RoundTrips s v := by
  intro v
  induction v using Value.inductionOn with
  | hnull =>
    intro _ tbl w tbl' h
    rw [ser] at h; cases h
    exact ⟨List.Subset.refl _, fun s2 tbl2 _ _ => rfl⟩
  | hbool b =>
    intro _ tbl w tbl' h
    rw [ser] at h; cases h
    exact ⟨List.Subset.refl _, fun s2 tbl2 _ _ => rfl⟩
  | hint n =>
    intro _ tbl w tbl' h
    rw [ser] at h; cases h
    exact ⟨List.Subset.refl _, fun s2 tbl2 _ _ => rfl⟩
  | hstr t =>
    intro _ tbl w tbl' h
    rw [ser] at h; cases h
    exact ⟨List.Subset.refl _, fun s2 tbl2 _ _ => rfl⟩
  | hlist xs ih =>
    intro hsafe tbl w tbl' h
    rw [round_safe] at hsafe
    simp only [ser, exceptBindOkIff] at h
    obtain ⟨⟨ys, t1⟩, hseq, hfin⟩ := h
    cases hfin
    obtain ⟨hm, hd⟩ := rt_seq s xs ih hsafe tbl ys t1 hseq
    refine ⟨hm, fun s2 tbl2 hds hsub => ?_⟩
    simp only [deser, hd s2 tbl2 hds hsub, exceptOkBind, canon]
  | htuple xs ih =>
    intro hsafe tbl w tbl' h
    rw [round_safe] at hsafe
    simp only [ser, exceptBindOkIff] at h
    obtain ⟨⟨ys, t1⟩, hseq, hfin⟩ := h
    cases hfin
    obtain ⟨hm, hd⟩ := rt_seq s xs ih hsafe tbl ys t1 hseq
    refine ⟨hm, fun s2 tbl2 hds hsub => ?_⟩
    simp only [deser, hd s2 tbl2 hds hsub, exceptOkBind, canon]
  | hset xs ih =>
    intro hsafe tbl w tbl' h
    rw [round_safe] at hsafe
    simp only [ser, exceptBindOkIff] at h
    obtain ⟨⟨ys, t1⟩, hseq, hfin⟩ := h
    cases hfin
    obtain ⟨hm, hd⟩ := rt_seq s xs ih hsafe tbl ys t1 hseq
    refine ⟨hm, fun s2 tbl2 hds hsub => ?_⟩
    simp only [deser, hd s2 tbl2 hds hsub, exceptOkBind, canon]
  | hdict kvs ih =>
    intro hsafe tbl w tbl' h
    simp only [ser, exceptBindOkIff] at h
    obtain ⟨⟨kvs2, t1⟩, hser, hfin⟩ := h
    cases hfin
    cases kvs with
    | nil =>
      simp only [serFields, Except.ok.injEq, Prod.mk.injEq] at hser
      obtain ⟨rfl, rfl⟩ := hser
      exact ⟨List.Subset.refl _, fun s2 tbl2 _ _ => rfl⟩
    | cons kv rest =>
      obtain ⟨k, v⟩ := kv
      cases rest with
      | nil =>
        simp only [round_safe, Bool.and_eq_true, Bool.not_eq_true'] at hsafe
        obtain ⟨hk, hflds⟩ := hsafe
        simp only [serFields, exceptBindOkIff] at hser
        obtain ⟨⟨w1, ta⟩, hserv, ⟨kvs3, tb⟩, hrest, hfin2⟩ := hser
        cases hfin2
        simp only [serFields, Except.ok.injEq, Prod.mk.injEq] at hrest
        obtain ⟨rfl, rfl⟩ := hrest
        have hsv : round_safe v = true := roundSafeFields_mem hflds (k, v) (by simp)
        obtain ⟨hm, hd⟩ := ih (k, v) (by simp) hsv tbl w1 ta hserv
        refine ⟨hm, fun s2 tbl2 hds hsub => ?_⟩
        rw [deser, is_known_tag_of_empty hds, hk]
        simp only [Bool.false_eq_true, if_false]
        rw [hd s2 tbl2 hds hsub, exceptOkBind]
        rfl
      | cons kv2 rest2 =>
        simp only [round_safe, Bool.true_and] at hsafe
        obtain ⟨hkeys, hm, hd⟩ :=
          rt_fields s ((k, v) :: kv2 :: rest2) ih hsafe tbl kvs2 t1 hser
        refine ⟨hm, fun s2 tbl2 hds hsub => ?_⟩
        cases kvs2 with
        | nil => simp at hkeys
        | cons a tail =>
          cases tail with
          | nil => simp at hkeys
          | cons b tail2 =>
            simp only [deser, hd s2 tbl2 hds hsub, exceptOkBind, canon]
  | hdt d =>
    intro _ tbl w tbl' h
    rw [ser] at h; cases h
    refine ⟨List.Subset.refl _, fun s2 tbl2 hds hsub => ?_⟩
    have h1 : deser s2 tbl2 (.dict [("datetime", .str (isoformat (astimezone d)))])
        = (match fromisoformat (isoformat (astimezone d)) with
           | some d2 => Except.ok (.datetime d2)
           | none => Except.error (.malformed "datetime")) := rfl
    rw [h1, fromisoformat_isoformat]
    rfl
  | hbytes bs =>
    intro _ tbl w tbl' h
    rw [ser] at h; cases h
    refine ⟨List.Subset.refl _, fun s2 tbl2 hds hsub => ?_⟩
    have h1 : deser s2 tbl2 (.dict [("bytes", .str (base64encode bs))])
        = (match base64decode (base64encode bs) with
           | some bs2 => Except.ok (.bytes bs2)
           | none => Except.error (.malformed "bytes")) := rfl
    rw [h1, base64decode_base64encode]
    rfl
  | hrecord n fs ih =>
    intro hsafe tbl w tbl' h
    simp only [round_safe, Bool.and_eq_true] at hsafe
    obtain ⟨hnoclass, hflds⟩ := hsafe
    simp only [ser, exceptBindOkIff] at h
    obtain ⟨⟨fs2, t1⟩, hserf, hfin⟩ := h
    cases hfin
    obtain ⟨hkeys, hm, hd⟩ := rt_fields s fs ih hflds tbl fs2 t1 hserf
    refine ⟨hm.trans (subset_remember n t1), fun s2 tbl2 hds hsub => ?_⟩
    have hsub1 : t1 ⊆ tbl2 := (subset_remember n t1).trans hsub
    have h1 : deser s2 tbl2 (.dict [("dataclass", .dict (("class", .str n) :: fs2))])
        = (do
            let q ← deserPayload s2 tbl2 (.dict (("class", .str n) :: fs2))
            decodePayload s2 tbl2 "dataclass" q) := rfl
    rw [h1, deserPayload, deserFields,
      show deser s2 tbl2 (.str n) = .ok (.str n) from rfl, exceptOkBind,
      hd s2 tbl2 hds hsub1, exceptOkBind, exceptOkBind, exceptOkBind]
    have h3 : decodePayload s2 tbl2 "dataclass"
          (.dict (("class", .str n) :: canonFields fs))
        = (if tbl2.contains n = true then
             Except.ok (.record n (removeKey (("class", Value.str n) :: canonFields fs) "class"))
           else Except.error (.noDataclass n tbl2)) := rfl
    rw [h3, if_pos (string_contains_iff.2 (hsub (mem_remember n t1))),
      removeKey_class_canonFields hnoclass]
    rfl
  | hobj c attrs ih =>
    intro _ tbl w tbl' h
    simp only [ser, hs, List.find?_nil] at h
    exact Except.noConfusion h
  | hell =>
    intro _ tbl w tbl' h
    simp only [ser, hs, List.find?_nil] at h
    exact Except.noConfusion h

theorem lookupKey_none_of_all {kvs : List (String × Value)} {k : String}
    (h : kvs.all (fun kv => kv.1 != k) = true) : lookupKey kvs k = none := by
  induction kvs with
  | nil => rfl
  | cons kv rest ih =>
    obtain ⟨k0, v0⟩ := kv
    rw [List.all_cons, Bool.and_eq_true] at h
    rw [lookupKey, List.find?_cons]
    have : (k0 == k) = false := by
      have := h.1
      simp only [bne_iff_ne, ne_eq] at this
      exact beq_eq_false_iff_ne.2 this
    rw [this]
    have := ih h.2
    rw [lookupKey] at this
    exact this

theorem removeKey_cons_of_all {fs : List (String × Value)} {x : Value}
    {k : String} (h : fs.all (fun kv => kv.1 != k) = true) :
    removeKey ((k, x) :: fs) k = fs := by
  rw [removeKey, List.filter_cons]
  simp only [bne_self_eq_false, Bool.false_eq_true, if_false]
  apply List.filter_eq_self.2
  intro kv hkv
  exact List.all_eq_true.1 h kv hkv

/-- Whether a positional-args list has the same shape as a combined
positional-plus-keyword payload, making the wire form ambiguous. -/
def args_pair_shaped : List Value → Bool
  | [Value.list _, Value.dict _] => true
  | _ => false

/-- C1 counterexample: the claim "deserialize(serialize(v)) equals v for
every accepted host value, except tuple-like or set-like containers" fails
at the plain host mapping with the single key "bytes" and empty-text
value: it contains no tuple-like or set-like container (it is flat), it is
accepted by `serialize` and passes through unchanged, yet `deserialize`
reinterprets the result as a byte-string tag wrapper and returns the empty
byte string, which is not the original mapping. -/
theorem c1_counterexample :
    flat (Value.dict [("bytes", .str "")]) = true ∧
    serialize {} (Value.dict [("bytes", .str "")]) =
      .ok (Value.dict [("bytes", .str "")], {}) ∧
    deserialize {} (Value.dict [("bytes", .str "")]) = .ok (Value.bytes []) ∧
    Value.bytes [] ≠ Value.dict [("bytes", .str "")] :=
  ⟨rfl, rfl, rfl, fun h => Value.noConfusion h⟩

/-- C1 as amended: in a fresh engine, every round-safe host value accepted
by `serialize` round-trips to its canonical image: tuple-like and set-like
containers come back as ordered sequences and naive timestamps come back
localized, and the value is further required to contain no mapping with
exactly one key equal to a built-in tag (the wire-format ambiguity the
spec documents in its sections 3 and 9) and no record field named "class". -/
theorem c1_round_trip (cs : List PyType) (v w : Value) (s2 : Serialization)
    (hsafe : round_safe v = true)
    (h : serialize { classes := cs } v = .ok (w, s2)) :
    deserialize s2 w = .ok (canon v) := by
  simp only [serialize, missing_serializer, serializer_tags, deserializer_tags,
    List.map_nil, List.find?_nil, exceptBindOkIff] at h
  obtain ⟨⟨w1, tbl'⟩, hser, hfin⟩ := h
  cases hfin
  obtain ⟨hmono, hd⟩ :=
    round_trip_core { classes := cs } rfl v hsafe [] w1 tbl' hser
  exact hd _ tbl' rfl (List.Subset.refl tbl')

/-- C1 amended-claim witness at a concrete input holding a tuple, a byte
string, a naive timestamp and an auto-detected record. -/
theorem c1_round_trip_witness :
    round_safe (Value.dict
      [("t", .tuple [.int 1, .bytes [72]]),
       ("d", .datetime ⟨5, none⟩),
       ("r", .record "A8" [("x", .int 1)])]) = true ∧
    serialize {} (Value.dict
      [("t", .tuple [.int 1, .bytes [72]]),
       ("d", .datetime ⟨5, none⟩),
       ("r", .record "A8" [("x", .int 1)])]) =
      .ok (Value.dict
        [("t", .list [.int 1, .dict [("bytes", .str "SA==")]]),
         ("d", .dict [("datetime", .str "5+120")]),
         ("r", .dict [("dataclass", .dict [("class", .str "A8"), ("x", .int 1)])])],
        { dataclasses := ["A8"] }) ∧
    deserialize { dataclasses := ["A8"] }
      (Value.dict
        [("t", .list [.int 1, .dict [("bytes", .str "SA==")]]),
         ("d", .dict [("datetime", .str "5+120")]),
         ("r", .dict [("dataclass", .dict [("class", .str "A8"), ("x", .int 1)])])]) =
      .ok (canon (Value.dict
        [("t", .tuple [.int 1, .bytes [72]]),
         ("d", .datetime ⟨5, none⟩),
         ("r", .record "A8" [("x", .int 1)])])) :=
  ⟨rfl, rfl, c1_round_trip [] _ _ _ rfl rfl⟩

/-- C9: the empty byte string serializes to the byte-string wrapper with
empty text, the byte string "Hello, world!" serializes to its base64 text,
and both wire values deserialize back to exactly the original bytes. -/
theorem c9_bytes :
    serialize {} (Value.bytes []) = .ok (.dict [("bytes", .str "")], {}) ∧
    serialize {} (Value.bytes
        [72, 101, 108, 108, 111, 44, 32, 119, 111, 114, 108, 100, 33]) =
      .ok (.dict [("bytes", .str "SGVsbG8sIHdvcmxkIQ==")], {}) ∧
    deserialize {} (.dict [("bytes", .str "")]) = .ok (Value.bytes []) ∧
    deserialize {} (.dict [("bytes", .str "SGVsbG8sIHdvcmxkIQ==")]) =
      .ok (Value.bytes
        [72, 101, 108, 108, 111, 44, 32, 119, 111, 114, 108, 100, 33]) :=
  ⟨rfl, rfl, rfl, rfl⟩

/-- C7: in any balanced engine, a timezone-bearing timestamp serializes to
the one-key mapping under the timestamp tag holding its own ISO-8601
string, a timezone-free timestamp is first attributed the process's local
timezone and serializes to the ISO-8601 of that localized equivalent, and
deserializing the produced wire value returns the (localized, for the
naive case) timestamp, which for a naive original is not equal to it. -/
theorem c7_datetime (s : Serialization) (d : Datetime)
    (h1 : missing_serializer s = none)
    (h2 : missing_deserializer s = none) :
    serialize s (.datetime d) =
      .ok (.dict [("datetime", .str (isoformat (astimezone d)))], s) ∧
    (d.tz ≠ none → astimezone d = d) ∧
    deserialize s (.dict [("datetime", .str (isoformat (astimezone d)))]) =
      .ok (.datetime (astimezone d)) ∧
    (d.tz = none → Value.datetime (astimezone d) ≠ Value.datetime d) := by
  refine ⟨?_, ?_, ?_, ?_⟩
  · simp only [serialize, h1, ser, exceptOkBind]
  · intro htz
    obtain ⟨wall, tz⟩ := d
    cases tz with
    | none => exact absurd rfl htz
    | some o => rfl
  · simp only [deserialize, h2]
    have hx : deser s s.dataclasses
        (.dict [("datetime", .str (isoformat (astimezone d)))])
        = (match fromisoformat (isoformat (astimezone d)) with
           | some d2 => Except.ok (.datetime d2)
           | none => Except.error (.malformed "datetime")) := rfl
    rw [hx, fromisoformat_isoformat]
  · intro htz
    obtain ⟨wall, tz⟩ := d
    cases htz
    simp [astimezone]

/-- C7 witness at the naive timestamp with wall clock 5. -/
theorem c7_datetime_witness :
    serialize {} (.datetime ⟨5, none⟩) =
      .ok (.dict [("datetime", .str (isoformat (astimezone ⟨5, none⟩)))], {}) ∧
    ((⟨5, none⟩ : Datetime).tz ≠ none → astimezone ⟨5, none⟩ = ⟨5, none⟩) ∧
    deserialize {} (.dict [("datetime", .str (isoformat (astimezone ⟨5, none⟩)))]) =
      .ok (.datetime (astimezone ⟨5, none⟩)) ∧
    ((⟨5, none⟩ : Datetime).tz = none →
      Value.datetime (astimezone ⟨5, none⟩) ≠ Value.datetime ⟨5, none⟩) :=
  c7_datetime {} ⟨5, none⟩ rfl rfl

/-- Whether a wire mapping is a tag wrapper for the engine: exactly one
key, equal to a currently-known tag. -/
def one_key_known (s : Serialization) : List (String × Value) → Bool
  | [(k, _)] => is_known_tag s k
  | _ => false

/-- C8: in any balanced engine, a mapping that is not a one-key mapping
under a currently-known tag deserializes to a mapping with the same keys
and each value deep-deserialized; and every wire value containing no
one-key mapping under a known tag deserializes to itself unchanged, so an
inner one-key mapping whose key matches no known tag is returned as-is
rather than raising an unknown-tag error. -/
theorem c8_unknown_mapping (s : Serialization)
    (hbal : missing_deserializer s = none) :
    (∀ kvs : List (String × Value), one_key_known s kvs = false →
      deserialize s (.dict kvs) =
        (do
          let kvs2 ← deserFields s s.dataclasses kvs
          Except.ok (.dict kvs2))) ∧
    (∀ v : Value, no_wrapper s v = true → deserialize s v = .ok v) := by
  constructor
  · intro kvs hk
    simp only [deserialize, hbal]
    cases kvs with
    | nil => rfl
    | cons kv rest =>
      obtain ⟨k, p⟩ := kv
      cases rest with
      | nil =>
        rw [one_key_known] at hk
        rw [deser, hk]
        simp only [Bool.false_eq_true, if_false]
        rw [deserFields]
        cases hq : deser s s.dataclasses p with
        | error e => rfl
        | ok q =>
          rw [exceptOkBind, deserFields, exceptOkBind, exceptOkBind]
          rfl
      | cons kv2 rest2 => rfl
  · intro v hv
    simp only [deserialize, hbal]
    exact deser_no_wrapper s v hv s.dataclasses

/-- C8 witness: the mapping whose "x" value is a one-key mapping under the
unknown tag "custom" deserializes to itself in the fresh engine. -/
theorem c8_unknown_mapping_witness :
    one_key_known {} [("x", Value.dict [("custom", .str "...")])] = false ∧
    deserialize {} (.dict [("x", Value.dict [("custom", .str "...")])]) =
      .ok (.dict [("x", Value.dict [("custom", .str "...")])]) :=
  ⟨rfl, (c8_unknown_mapping {} rfl).2
    (.dict [("x", Value.dict [("custom", .str "...")])]) rfl⟩

/-- C6: in any balanced engine, a value of a shape no built-in handler and
no auto-record detector accepts (a class instance or the unmatched
sentinel) whose predicates all reject it makes `serialize` fail with
NoRuleError carrying all currently available tags, rendered through the
list-formatting utility `concat`, while `serialize_value` on the same
value returns the no-match sentinel without raising. -/
theorem c6_no_rule (s : Serialization) (v : Value)
    (hbal : missing_serializer s = none)
    (hshape : v = .ellipsis ∨ ∃ c attrs, v = .obj c attrs)
    (hnomatch : ∀ r ∈ s.serializers, evalPred s.classes r.pred v = false) :
    serialize s v = .error (.noRule (available_serializers s)) ∧
    serialize_value s v = .ok (none, s) ∧
    error_message (.noRule (available_serializers s)) =
      "unable to serialize data: only none, booleans, integers, floats, " ++
      "strings and serializable values are allowed, as well as lists, " ++
      "tuples, sets or dictionaries thereof (available serializers are " ++
      concat (available_serializers s) ++ ")" := by
  have hfind : s.serializers.find? (fun r => evalPred s.classes r.pred v) = none :=
    List.find?_eq_none.2 (fun r hr => by rw [hnomatch r hr]; exact Bool.false_ne_true)
  rcases hshape with rfl | ⟨c, attrs, rfl⟩
  · refine ⟨?_, ?_, rfl⟩
    · simp only [serialize, hbal, ser, hfind, exceptErrBind]
    · simp only [serialize_value, hbal, ser_value, hfind, exceptOkBind]
  · refine ⟨?_, ?_, rfl⟩
    · simp only [serialize, hbal, ser, hfind, exceptErrBind]
    · simp only [serialize_value, hbal, ser_value, hfind, exceptOkBind]

/-- C6 witness at the unmatched sentinel in the fresh engine. -/
theorem c6_no_rule_witness :
    serialize {} .ellipsis =
      .error (.noRule (available_serializers {})) ∧
    serialize_value {} .ellipsis = .ok (none, {}) ∧
    error_message (.noRule (available_serializers {})) =
      "unable to serialize data: only none, booleans, integers, floats, " ++
      "strings and serializable values are allowed, as well as lists, " ++
      "tuples, sets or dictionaries thereof (available serializers are " ++
      concat (available_serializers {}) ++ ")" :=
  c6_no_rule {} .ellipsis rfl (Or.inl rfl) (fun r hr => absurd hr (by simp))

/-- C5: when the first registered serializer tag lacking a deserializer is
t, every top-level `deserialize` call fails at entry with the
registry-imbalance error naming t, whatever the value; symmetrically, when
the first deserializer tag lacking a serializer is t, every top-level
`serialize` call fails at entry naming t.  The rendered message names the
tag in each direction. -/
theorem c5_imbalance (s1 s2 : Serialization) (t1 t2 : String)
    (h1 : missing_deserializer s1 = some t1)
    (h2 : missing_serializer s2 = some t2) :
    (∀ v, deserialize s1 v = .error (.noDeserializers t1)) ∧
    (∀ v, serialize s2 v = .error (.noSerializers t2)) ∧
    error_message (.noDeserializers t1) = "no deserializers for " ++ t1 ∧
    error_message (.noSerializers t2) = "no serializers for " ++ t2 := by
  refine ⟨fun v => ?_, fun v => ?_, rfl, rfl⟩
  · simp only [deserialize, h1]
  · simp only [serialize, h2]

/-- C5 witness: registering only a serializer for tag "custom" blocks
`deserialize` of the unrelated value 1, and registering only a
deserializer for it blocks `serialize` of 1. -/
theorem c5_imbalance_witness :
    deserialize (Serialization.serializer {} "custom"
        (.callable fun _ => true) (.custom fun _ => .str "...")) (.int 1) =
      .error (.noDeserializers "custom") ∧
    serialize (Serialization.deserializer {} "custom"
        (.custom fun _ => .ellipsis)) (.int 1) =
      .error (.noSerializers "custom") :=
  ⟨(c5_imbalance
      (Serialization.serializer {} "custom"
        (.callable fun _ => true) (.custom fun _ => .str "..."))
      (Serialization.deserializer {} "custom" (.custom fun _ => .ellipsis))
      "custom" "custom" rfl rfl).1 (.int 1),
   (c5_imbalance
      (Serialization.serializer {} "custom"
        (.callable fun _ => true) (.custom fun _ => .str "..."))
      (Serialization.deserializer {} "custom" (.custom fun _ => .ellipsis))
      "custom" "custom" rfl rfl).2.1 (.int 1)⟩

/-- C10 counterexample: the claim "for every timestamp t, serialize_value
returns (the timestamp tag, t's own ISO-8601 string) and deserialize_value
returns a timestamp equal to t" fails at a naive timestamp: the returned
payload is the ISO-8601 of the localized equivalent, not t's own ISO-8601
string, and decoding it yields the localized timestamp, not t. -/
theorem c10_counterexample :
    serialize_value {} (.datetime ⟨5, none⟩) =
      .ok (some ("datetime", .str "5+120"), {}) ∧
    isoformat ⟨5, none⟩ = "5" ∧
    ("5+120" : String) ≠ "5" ∧
    deserialize_value {} "datetime" (.str "5+120") =
      .ok (.datetime ⟨5, some 120⟩) ∧
    Value.datetime ⟨5, some 120⟩ ≠ Value.datetime ⟨5, none⟩ :=
  ⟨rfl, rfl, by decide, rfl, by simp⟩

/-- C10 as amended: without any registration by the caller, the
single-level primitives drive the built-in tags: for a timezone-bearing
timestamp, `serialize_value` returns the pair of the timestamp tag and the
timestamp's own ISO-8601 string and `deserialize_value` inverts it (a
naive timestamp instead yields the ISO-8601 of its localized equivalent,
which decodes to that localized timestamp); for every byte string,
`serialize_value` returns the pair of the byte-string tag and the base64
text and `deserialize_value` inverts it. -/
theorem c10_value_primitives (s : Serialization)
    (hbal : missing_serializer s = none) :
    (∀ (d : Datetime) (o : Int), d.tz = some o →
      serialize_value s (.datetime d) =
        .ok (some ("datetime", .str (isoformat d)), s) ∧
      deserialize_value s "datetime" (.str (isoformat d)) =
        .ok (.datetime d)) ∧
    (∀ d : Datetime, d.tz = none →
      serialize_value s (.datetime d) =
        .ok (some ("datetime", .str (isoformat (astimezone d))), s) ∧
      deserialize_value s "datetime" (.str (isoformat (astimezone d))) =
        .ok (.datetime (astimezone d))) ∧
    (∀ bs : List (Fin 256),
      serialize_value s (.bytes bs) =
        .ok (some ("bytes", .str (base64encode bs)), s) ∧
      deserialize_value s "bytes" (.str (base64encode bs)) =
        .ok (.bytes bs)) := by
  have hdeser : ∀ d : Datetime,
      deserialize_value s "datetime" (.str (isoformat d)) = .ok (.datetime d) := by
    intro d
    have hx : deserialize_value s "datetime" (.str (isoformat d))
        = (match fromisoformat (isoformat d) with
           | some d2 => Except.ok (.datetime d2)
           | none => Except.error (.malformed "datetime")) := rfl
    rw [hx, fromisoformat_isoformat]
  refine ⟨fun d o htz => ⟨?_, hdeser d⟩, fun d htz => ⟨?_, hdeser _⟩, fun bs => ⟨?_, ?_⟩⟩
  · have ha : astimezone d = d := by
      obtain ⟨wall, tz⟩ := d
      cases htz
      rfl
    simp only [serialize_value, hbal, ser_value, exceptOkBind, ha]
  · simp only [serialize_value, hbal, ser_value, exceptOkBind]
  · simp only [serialize_value, hbal, ser_value, exceptOkBind]
  · have hx : deserialize_value s "bytes" (.str (base64encode bs))
        = (match base64decode (base64encode bs) with
           | some bs2 => Except.ok (.bytes bs2)
           | none => Except.error (.malformed "bytes")) := rfl
    rw [hx, base64decode_base64encode]

/-- C10 amended-claim witness at an aware timestamp, a naive timestamp and
a one-byte byte string in the fresh engine. -/
theorem c10_value_primitives_witness :
    (serialize_value {} (.datetime ⟨7, some 0⟩) =
       .ok (some ("datetime", .str (isoformat ⟨7, some 0⟩)), {}) ∧
     deserialize_value {} "datetime" (.str (isoformat ⟨7, some 0⟩)) =
       .ok (.datetime ⟨7, some 0⟩)) ∧
    (serialize_value {} (.datetime ⟨5, none⟩) =
       .ok (some ("datetime", .str (isoformat (astimezone ⟨5, none⟩))), {}) ∧
     deserialize_value {} "datetime" (.str (isoformat (astimezone ⟨5, none⟩))) =
       .ok (.datetime (astimezone ⟨5, none⟩))) ∧
    (serialize_value {} (.bytes [72]) =
       .ok (some ("bytes", .str (base64encode [72])), {}) ∧
     deserialize_value {} "bytes" (.str (base64encode [72])) =
       .ok (.bytes [72])) :=
  ⟨(c10_value_primitives {} rfl).1 ⟨7, some 0⟩ 0 rfl,
   (c10_value_primitives {} rfl).2.1 ⟨5, none⟩ rfl,
   (c10_value_primitives {} rfl).2.2 [72]⟩

/-- C4: two distinct never-registered record types serialize in one engine
instance under the single shared record tag with payload
class-name-plus-fields, the engine's Record-Type Table growing as a side
effect of each first sighting, and afterwards both are independently
deserializable by name in that instance; a record payload naming a type
never serialized in the instance fails with UnknownTagError listing the
known record-type names. -/
theorem c4_record_types (cs : List PyType) (n1 n2 : String)
    (f1 f2 : List (String × Value))
    (hne21 : (n2 == n1) = false)
    (hf1 : flatFields f1 = true) (hf2 : flatFields f2 = true)
    (hw1 : noWrapperFields { classes := cs, dataclasses := [n1, n2] } f1 = true)
    (hw2 : noWrapperFields { classes := cs, dataclasses := [n1, n2] } f2 = true)
    (hc1 : f1.all (fun kv => kv.1 != "class") = true)
    (hc2 : f2.all (fun kv => kv.1 != "class") = true) :
    serialize { classes := cs } (.record n1 f1) =
      .ok (.dict [("dataclass", .dict (("class", .str n1) :: f1))],
           { classes := cs, dataclasses := [n1] }) ∧
    serialize { classes := cs, dataclasses := [n1] } (.record n2 f2) =
      .ok (.dict [("dataclass", .dict (("class", .str n2) :: f2))],
           { classes := cs, dataclasses := [n1, n2] }) ∧
    deserialize { classes := cs, dataclasses := [n1, n2] }
        (.dict [("dataclass", .dict (("class", .str n1) :: f1))]) =
      .ok (.record n1 f1) ∧
    deserialize { classes := cs, dataclasses := [n1, n2] }
        (.dict [("dataclass", .dict (("class", .str n2) :: f2))]) =
      .ok (.record n2 f2) ∧
    (∀ m : String, ([n1, n2] : List String).contains m = false →
      deserialize { classes := cs, dataclasses := [n1, n2] }
          (.dict [("dataclass", .dict [("class", .str m)])]) =
        .error (.noDataclass m [n1, n2]) ∧
      is_unknown_tag_error (.noDataclass m [n1, n2]) = true) := by
  have hser1 : ∀ tbl, serFields { classes := cs } tbl f1 = .ok (f1, tbl) :=
    serFields_of_pointwise
      (fun kv hkv => ser_flat _ kv.2 (flatFields_mem hf1 kv hkv))
  have hser2 : ∀ tbl,
      serFields { classes := cs, dataclasses := [n1] } tbl f2 = .ok (f2, tbl) :=
    serFields_of_pointwise
      (fun kv hkv => ser_flat _ kv.2 (flatFields_mem hf2 kv hkv))
  have hdeser1 : ∀ tbl,
      deserFields { classes := cs, dataclasses := [n1, n2] } tbl f1 = .ok f1 :=
    deserFields_of_pointwise
      (fun kv hkv => deser_no_wrapper _ kv.2 (noWrapperFields_mem hw1 kv hkv))
  have hdeser2 : ∀ tbl,
      deserFields { classes := cs, dataclasses := [n1, n2] } tbl f2 = .ok f2 :=
    deserFields_of_pointwise
      (fun kv hkv => deser_no_wrapper _ kv.2 (noWrapperFields_mem hw2 kv hkv))
  refine ⟨?_, ?_, ?_, ?_, fun m hm => ⟨?_, rfl⟩⟩
  · simp only [serialize, missing_serializer, serializer_tags, deserializer_tags,
      List.map_nil, List.find?_nil, ser, hser1, exceptOkBind]
    rfl
  · simp only [serialize, missing_serializer, serializer_tags, deserializer_tags,
      List.map_nil, List.find?_nil, ser, hser2, exceptOkBind]
    have hcont : ([n1] : List String).contains n2 = false := by
      simp only [List.contains_cons, List.contains_nil, Bool.or_false]
      exact hne21
    have hrem : remember n2 [n1] = [n1, n2] := by
      rw [remember, hcont]
      simp
    rw [hrem]
  · simp only [deserialize, missing_deserializer, serializer_tags,
      deserializer_tags, List.map_nil, List.find?_nil]
    rw [deser, if_pos (show is_known_tag
        { classes := cs, dataclasses := [n1, n2] } "dataclass" = true from rfl)]
    rw [deserPayload, deserFields,
      show deser { classes := cs, dataclasses := [n1, n2] } [n1, n2] (.str n1)
        = .ok (.str n1) from rfl, exceptOkBind, hdeser1, exceptOkBind,
      exceptOkBind, exceptOkBind]
    have hx : decodePayload { classes := cs, dataclasses := [n1, n2] } [n1, n2]
        "dataclass" (.dict (("class", .str n1) :: f1))
        = (if ([n1, n2] : List String).contains n1 = true then
            Except.ok (.record n1 (removeKey (("class", Value.str n1) :: f1) "class"))
           else .error (.noDataclass n1 [n1, n2])) := rfl
    rw [hx, if_pos (by simp [List.contains_cons]), removeKey_cons_of_all hc1]
  · simp only [deserialize, missing_deserializer, serializer_tags,
      deserializer_tags, List.map_nil, List.find?_nil]
    rw [deser, if_pos (show is_known_tag
        { classes := cs, dataclasses := [n1, n2] } "dataclass" = true from rfl)]
    rw [deserPayload, deserFields,
      show deser { classes := cs, dataclasses := [n1, n2] } [n1, n2] (.str n2)
        = .ok (.str n2) from rfl, exceptOkBind, hdeser2, exceptOkBind,
      exceptOkBind, exceptOkBind]
    have hx : decodePayload { classes := cs, dataclasses := [n1, n2] } [n1, n2]
        "dataclass" (.dict (("class", .str n2) :: f2))
        = (if ([n1, n2] : List String).contains n2 = true then
            Except.ok (.record n2 (removeKey (("class", Value.str n2) :: f2) "class"))
           else .error (.noDataclass n2 [n1, n2])) := rfl
    rw [hx, if_pos (by simp [List.contains_cons]), removeKey_cons_of_all hc2]
  · simp only [deserialize, missing_deserializer, serializer_tags,
      deserializer_tags, List.map_nil, List.find?_nil]
    rw [deser, if_pos (show is_known_tag
        { classes := cs, dataclasses := [n1, n2] } "dataclass" = true from rfl)]
    rw [show deserPayload { classes := cs, dataclasses := [n1, n2] } [n1, n2]
        (.dict [("class", .str m)]) = .ok (.dict [("class", .str m)]) from rfl,
      exceptOkBind]
    have hx : decodePayload { classes := cs, dataclasses := [n1, n2] } [n1, n2]
        "dataclass" (.dict [("class", .str m)])
        = (if ([n1, n2] : List String).contains m = true then
            Except.ok (.record m (removeKey [("class", Value.str m)] "class"))
           else .error (.noDataclass m [n1, n2])) := rfl
    rw [hx, hm]
    simp only [Bool.false_eq_true, if_false]

/-- C4 witness at two concrete dataclasses and the unknown name "B". -/
theorem c4_record_types_witness :
    serialize {} (.record "A8" [("x", .int 1), ("y", .int 2)]) =
      .ok (.dict [("dataclass",
            .dict [("class", .str "A8"), ("x", .int 1), ("y", .int 2)])],
           { dataclasses := ["A8"] }) ∧
    serialize { dataclasses := ["A8"] }
        (.record "A9" [("s", .str "Hello, world!"), ("xs", .list [.int 1, .int 2, .int 3])]) =
      .ok (.dict [("dataclass",
            .dict [("class", .str "A9"), ("s", .str "Hello, world!"),
                   ("xs", .list [.int 1, .int 2, .int 3])])],
           { dataclasses := ["A8", "A9"] }) ∧
    deserialize { dataclasses := ["A8", "A9"] }
        (.dict [("dataclass",
          .dict [("class", .str "A8"), ("x", .int 1), ("y", .int 2)])]) =
      .ok (.record "A8" [("x", .int 1), ("y", .int 2)]) ∧
    deserialize { dataclasses := ["A8", "A9"] }
        (.dict [("dataclass",
          .dict [("class", .str "A9"), ("s", .str "Hello, world!"),
                 ("xs", .list [.int 1, .int 2, .int 3])])]) =
      .ok (.record "A9" [("s", .str "Hello, world!"), ("xs", .list [.int 1, .int 2, .int 3])]) ∧
    (deserialize { dataclasses := ["A8", "A9"] }
        (.dict [("dataclass", .dict [("class", .str "B")])]) =
      .error (.noDataclass "B" ["A8", "A9"]) ∧
     is_unknown_tag_error (.noDataclass "B" ["A8", "A9"]) = true) := by
  obtain ⟨h1, h2, h3, h4, h5⟩ := c4_record_types [] "A8" "A9"
    [("x", .int 1), ("y", .int 2)]
    [("s", .str "Hello, world!"), ("xs", .list [.int 1, .int 2, .int 3])]
    rfl rfl rfl rfl rfl rfl rfl
  exact ⟨h1, h2, h3, h4, h5 "B" rfl⟩

/-- Engine scenario for polymorphic dispatch: the base type is registered
via `add_baseclass` first, and the live class graph is extended with the
subclass afterwards, modelling a subclass defined after the registration
call (spec 4.4: resolution is dynamic, not registered up front). -/
def baseclassState (cs0 : List PyType) (B S : PyType) : Serialization :=
  { Serialization.add_baseclass { classes := cs0 } B with classes := cs0 ++ [S] }

/-- C3: after `add_baseclass(Base)` with default functions, serializing an
instance of a subclass defined after the registration yields the wrapper
under the base tag with the runtime class name injected before the
instance's fields, and deserializing that wire value resolves the named
subclass in the live transitive-subclass graph of the base and calls it
with the remaining fields as keyword arguments, reconstructing an equal
instance; a payload whose "class" names no known subclass fails with
UnknownTagError naming the base and listing the known subclass names. -/
theorem c3_baseclass (cs0 : List PyType) (B S : PyType)
    (attrs : List (String × Value))
    (hBname : builtin_tags.contains B.name = false)
    (hsub : issubclass (cs0 ++ [S]) S.name B.name = true)
    (hfind : (subclassesOf (cs0 ++ [S]) B.name).find?
        (fun c => c.name == S.name) = some S)
    (hflat : flatFields attrs = true)
    (hnw : noWrapperFields (baseclassState cs0 B S) attrs = true)
    (hnoclass : attrs.all (fun kv => kv.1 != "class") = true)
    (hnew : S.new [] attrs = .obj S.name attrs) :
    serialize (baseclassState cs0 B S) (.obj S.name attrs) =
      .ok (.dict [(B.name, .dict (("class", .str S.name) :: attrs))],
           baseclassState cs0 B S) ∧
    deserialize (baseclassState cs0 B S)
        (.dict [(B.name, .dict (("class", .str S.name) :: attrs))]) =
      .ok (.obj S.name attrs) ∧
    (∀ bad : String,
      (subclassesOf (cs0 ++ [S]) B.name).find? (fun c => c.name == bad) = none →
      deserialize (baseclassState cs0 B S)
          (.dict [(B.name, .dict [("class", .str bad)])]) =
        .error (.noSubclass B.name bad
          ((subclassesOf (cs0 ++ [S]) B.name).map (fun c => c.name))) ∧
      is_unknown_tag_error (.noSubclass B.name bad
          ((subclassesOf (cs0 ++ [S]) B.name).map (fun c => c.name))) = true) := by
  have hb : (B.name == "datetime") = false ∧ (B.name == "bytes") = false ∧
      (B.name == "dataclass") = false := by
    simp only [builtin_tags, List.contains_cons, List.contains_nil,
      Bool.or_false, Bool.or_eq_false_iff] at hBname
    exact hBname
  have hstate : baseclassState cs0 B S =
      { serializers := [⟨B.name, .instanceOf B.name, .baseclassDefault B.name⟩],
        deserializers := [(B.name, .baseclassDefault B.name)],
        classes := cs0 ++ [S], dataclasses := [] } := by
    simp [baseclassState, Serialization.add_baseclass, Serialization.add,
      Serialization.serializer, Serialization.deserializer]
  have hbal_ser : missing_serializer (baseclassState cs0 B S) = none := by
    rw [hstate]
    simp [missing_serializer, serializer_tags, deserializer_tags,
      List.find?_cons, List.contains_cons]
  have hbal_deser : missing_deserializer (baseclassState cs0 B S) = none := by
    rw [hstate]
    simp [missing_deserializer, serializer_tags, deserializer_tags,
      List.find?_cons, List.contains_cons]
  have hknown : is_known_tag (baseclassState cs0 B S) B.name = true := by
    rw [hstate]
    simp [is_known_tag, deserializer_tags, List.contains_cons]
  have hser_attrs : ∀ tbl, serFields (baseclassState cs0 B S) tbl attrs =
      .ok (attrs, tbl) :=
    serFields_of_pointwise
      (fun kv hkv => ser_flat _ kv.2 (flatFields_mem hflat kv hkv))
  have hdeser_attrs : ∀ tbl, deserFields (baseclassState cs0 B S) tbl attrs =
      .ok attrs :=
    deserFields_of_pointwise
      (fun kv hkv => deser_no_wrapper _ kv.2 (noWrapperFields_mem hnw kv hkv))
  have hdecode : ∀ (tbl : List String) (kvs : List (String × Value)),
      decodePayload (baseclassState cs0 B S) tbl B.name (.dict kvs) =
        (match lookupKey kvs "class" with
         | some (.str n) =>
           match (subclassesOf (cs0 ++ [S]) B.name).find? (fun c => c.name == n) with
           | some t => .ok (t.new [] (removeKey kvs "class"))
           | none => .error (.noSubclass B.name n
               ((subclassesOf (cs0 ++ [S]) B.name).map (fun c => c.name)))
         | _ => .error (.malformed B.name)) := by
    intro tbl kvs
    rw [decodePayload]
    rw [if_neg (by rw [hb.1]; exact Bool.false_ne_true),
      if_neg (by rw [hb.2.1]; exact Bool.false_ne_true),
      if_neg (by rw [hb.2.2]; exact Bool.false_ne_true)]
    rw [show (baseclassState cs0 B S).deserializers.find? (fun e => e.1 == B.name)
        = some (B.name, .baseclassDefault B.name) from by
      rw [hstate]; simp [List.find?_cons]]
    rw [show (baseclassState cs0 B S).classes = cs0 ++ [S] from by rw [hstate]]
  refine ⟨?_, ?_, fun bad hbad => ⟨?_, rfl⟩⟩
  · have hfind_rule : (baseclassState cs0 B S).serializers.find?
        (fun r => evalPred (baseclassState cs0 B S).classes r.pred
          (.obj S.name attrs))
        = some ⟨B.name, .instanceOf B.name, .baseclassDefault B.name⟩ := by
      rw [hstate]
      exact List.find?_cons_of_pos _ (by simp [evalPred, isinstance, hsub])
    simp only [serialize, hbal_ser, ser, hfind_rule, hser_attrs, exceptOkBind]
  · simp only [deserialize, hbal_deser]
    rw [deser, if_pos hknown]
    rw [deserPayload, deserFields,
      show deser (baseclassState cs0 B S) (baseclassState cs0 B S).dataclasses
        (.str S.name) = .ok (.str S.name) from rfl,
      exceptOkBind, hdeser_attrs, exceptOkBind, exceptOkBind, exceptOkBind,
      hdecode]
    simp only [show lookupKey (("class", Value.str S.name) :: attrs) "class"
        = some (.str S.name) from rfl,
      hfind, removeKey_cons_of_all hnoclass, hnew]
  · simp only [deserialize, hbal_deser]
    rw [deser, if_pos hknown]
    rw [show deserPayload (baseclassState cs0 B S)
          (baseclassState cs0 B S).dataclasses (.dict [("class", .str bad)])
        = .ok (.dict [("class", .str bad)]) from rfl,
      exceptOkBind, hdecode]
    simp only [show lookupKey [("class", Value.str bad)] "class"
        = some (.str bad) from rfl, hbad]

/-- C3 witness: base "A7" registered first, subclass "A7_1" added to the
class graph afterwards, with fields x and y, plus the unknown subclass
name "A7_4". -/
theorem c3_baseclass_witness :
    serialize (baseclassState [] { name := "A7" }
        { name := "A7_1", base := some "A7",
          new := fun _ kw => Value.obj "A7_1" kw })
        (.obj "A7_1" [("x", .int 1), ("y", .int 2)]) =
      .ok (.dict [("A7", .dict [("class", .str "A7_1"), ("x", .int 1), ("y", .int 2)])],
           baseclassState [] { name := "A7" }
             { name := "A7_1", base := some "A7",
               new := fun _ kw => Value.obj "A7_1" kw }) ∧
    deserialize (baseclassState [] { name := "A7" }
        { name := "A7_1", base := some "A7",
          new := fun _ kw => Value.obj "A7_1" kw })
        (.dict [("A7", .dict [("class", .str "A7_1"), ("x", .int 1), ("y", .int 2)])]) =
      .ok (.obj "A7_1" [("x", .int 1), ("y", .int 2)]) ∧
    deserialize (baseclassState [] { name := "A7" }
        { name := "A7_1", base := some "A7",
          new := fun _ kw => Value.obj "A7_1" kw })
        (.dict [("A7", .dict [("class", .str "A7_4")])]) =
      .error (.noSubclass "A7" "A7_4"
        ((subclassesOf
            ([] ++
              [({ name := "A7_1", base := some "A7",
                  new := fun _ kw => Value.obj "A7_1" kw } : PyType)])
            "A7").map
          (fun c => c.name))) := by
  obtain ⟨h1, h2, h3⟩ := c3_baseclass [] { name := "A7" }
    { name := "A7_1", base := some "A7",
      new := fun _ kw => Value.obj "A7_1" kw }
    [("x", .int 1), ("y", .int 2)]
    rfl rfl rfl rfl rfl rfl rfl
  exact ⟨h1, h2, (h3 "A7_4" rfl).1⟩

theorem addClass_state (cs : List PyType) (T : PyType) :
    Serialization.add_class { classes := cs } T =
      { serializers := [⟨T.name, .exactType T.name, .classDefault T⟩],
        deserializers := [(T.name, .classDefault T)],
        classes := cs, dataclasses := [] } := by
  simp [Serialization.add_class, Serialization.add, Serialization.serializer,
    Serialization.deserializer]

theorem addClass_bal_ser (cs : List PyType) (T : PyType) :
    missing_serializer (Serialization.add_class { classes := cs } T) = none := by
  rw [addClass_state]
  simp [missing_serializer, serializer_tags, deserializer_tags,
    List.find?_cons, List.contains_cons]

theorem addClass_bal_deser (cs : List PyType) (T : PyType) :
    missing_deserializer (Serialization.add_class { classes := cs } T) = none := by
  rw [addClass_state]
  simp [missing_deserializer, serializer_tags, deserializer_tags,
    List.find?_cons, List.contains_cons]

theorem addClass_known (cs : List PyType) (T : PyType) :
    is_known_tag (Serialization.add_class { classes := cs } T) T.name = true := by
  rw [addClass_state]
  simp [is_known_tag, deserializer_tags, List.contains_cons]

theorem addClass_find_rule (cs : List PyType) (T : PyType)
    (attrs : List (String × Value)) :
    (Serialization.add_class { classes := cs } T).serializers.find?
        (fun r => evalPred (Serialization.add_class { classes := cs } T).classes
          r.pred (.obj T.name attrs))
      = some ⟨T.name, .exactType T.name, .classDefault T⟩ := by
  rw [addClass_state]
  exact List.find?_cons_of_pos _ (by simp [evalPred])

theorem addClass_ser_obj (cs : List PyType) (T : PyType)
    (attrs : List (String × Value)) (tbl : List String) :
    ser (Serialization.add_class { classes := cs } T) tbl (.obj T.name attrs) =
      (match T.getstate with
       | some g =>
         Except.ok (Value.dict [(T.name,
           .dict [("state", g (.obj T.name attrs))])], tbl)
       | none =>
         match T.getnewargsEx with
         | some g =>
           match g (.obj T.name attrs) with
           | (args, kwargs) =>
             Except.ok (Value.dict [(T.name,
               .dict [("args", .list [.list args, .dict kwargs])])], tbl)
         | none =>
           match T.getnewargs with
           | some g =>
             Except.ok (Value.dict [(T.name,
               .dict [("args", .list (g (.obj T.name attrs)))])], tbl)
           | none =>
             (do
               let r ← serFields (Serialization.add_class { classes := cs } T)
                 tbl attrs
               Except.ok (Value.dict [(T.name, .dict r.1)], r.2))) := by
  simp only [ser, addClass_find_rule]

theorem addClass_decode (cs : List PyType) (T : PyType)
    (hname : builtin_tags.contains T.name = false)
    (tbl : List String) (kvs : List (String × Value)) :
    decodePayload (Serialization.add_class { classes := cs } T) tbl T.name
        (.dict kvs) =
      (match lookupKey kvs "state" with
       | some st =>
         match T.setstate with
         | some f => Except.ok (f st)
         | none => Except.error (.malformed T.name)
       | none =>
         match lookupKey kvs "args" with
         | some (.list [.list args, .dict kwargs]) => Except.ok (T.new args kwargs)
         | some (.list args) => Except.ok (T.new args [])
         | some _ => Except.error (.malformed T.name)
         | none => Except.ok (.obj T.name kvs)) := by
  have hb : (T.name == "datetime") = false ∧ (T.name == "bytes") = false ∧
      (T.name == "dataclass") = false := by
    simp only [builtin_tags, List.contains_cons, List.contains_nil,
      Bool.or_false, Bool.or_eq_false_iff] at hname
    exact hname
  rw [decodePayload]
  rw [if_neg (by rw [hb.1]; exact Bool.false_ne_true),
    if_neg (by rw [hb.2.1]; exact Bool.false_ne_true),
    if_neg (by rw [hb.2.2]; exact Bool.false_ne_true)]
  rw [show (Serialization.add_class { classes := cs } T).deserializers.find?
      (fun e => e.1 == T.name) = some (T.name, .classDefault T) from by
    rw [addClass_state]; simp [List.find?_cons]]

/-- C2: for instances of classes registered via `add_class` with no
override functions, the default serializer selects, per instance, the
first applicable capture strategy in priority order (state capture, then
combined positional-plus-keyword args capture, then positional-only args
capture, then flat attribute reflection over the merged attribute
storage), producing the documented payload shape for each, and the
default deserializer mirrors the same priority (a "state" key applies the
saved state to a constructor-bypassed instance, an "args" pair calls the
constructor with positional and keyword arguments, an "args" list calls
it positionally, and otherwise the flat mapping is set as attributes on a
constructor-bypassed instance), so each such instance round-trips under
the stated coherence of its hooks.  The four strategies are witnessed by
four types, one per strategy. -/
theorem c2_class_defaults (cs : List PyType)
    (T1 : PyType) (a1 : List (String × Value)) (g1 f1 : Value → Value)
    (T2 : PyType) (a2 : List (String × Value))
    (g2 : Value → List Value × List (String × Value))
    (as2 : List Value) (kw2 : List (String × Value))
    (T3 : PyType) (a3 : List (String × Value))
    (g3 : Value → List Value) (as3 : List Value)
    (T4 : PyType) (a4 : List (String × Value))
    (h1name : builtin_tags.contains T1.name = false)
    (h1g : T1.getstate = some g1)
    (h1s : T1.setstate = some f1)
    (h1nw : no_wrapper (Serialization.add_class { classes := cs } T1)
      (g1 (.obj T1.name a1)) = true)
    (h1coh : f1 (g1 (.obj T1.name a1)) = .obj T1.name a1)
    (h2name : builtin_tags.contains T2.name = false)
    (h2g : T2.getstate = none)
    (h2ex : T2.getnewargsEx = some g2)
    (h2eq : g2 (.obj T2.name a2) = (as2, kw2))
    (h2nw : no_wrapper (Serialization.add_class { classes := cs } T2)
      (.list [.list as2, .dict kw2]) = true)
    (h2coh : T2.new as2 kw2 = .obj T2.name a2)
    (h3name : builtin_tags.contains T3.name = false)
    (h3g : T3.getstate = none)
    (h3ex : T3.getnewargsEx = none)
    (h3n : T3.getnewargs = some g3)
    (h3eq : g3 (.obj T3.name a3) = as3)
    (h3shape : args_pair_shaped as3 = false)
    (h3nw : no_wrapper (Serialization.add_class { classes := cs } T3)
      (.list as3) = true)
    (h3coh : T3.new as3 [] = .obj T3.name a3)
    (h4name : builtin_tags.contains T4.name = false)
    (h4g : T4.getstate = none)
    (h4ex : T4.getnewargsEx = none)
    (h4n : T4.getnewargs = none)
    (h4flat : flatFields a4 = true)
    (h4nw : noWrapperFields (Serialization.add_class { classes := cs } T4)
      a4 = true)
    (h4nostate : a4.all (fun kv => kv.1 != "state") = true)
    (h4noargs : a4.all (fun kv => kv.1 != "args") = true) :
    serialize (Serialization.add_class { classes := cs } T1) (.obj T1.name a1) =
      .ok (.dict [(T1.name, .dict [("state", g1 (.obj T1.name a1))])],
           Serialization.add_class { classes := cs } T1) ∧
    deserialize (Serialization.add_class { classes := cs } T1)
        (.dict [(T1.name, .dict [("state", g1 (.obj T1.name a1))])]) =
      .ok (.obj T1.name a1) ∧
    serialize (Serialization.add_class { classes := cs } T2) (.obj T2.name a2) =
      .ok (.dict [(T2.name, .dict [("args", .list [.list as2, .dict kw2])])],
           Serialization.add_class { classes := cs } T2) ∧
    deserialize (Serialization.add_class { classes := cs } T2)
        (.dict [(T2.name, .dict [("args", .list [.list as2, .dict kw2])])]) =
      .ok (.obj T2.name a2) ∧
    serialize (Serialization.add_class { classes := cs } T3) (.obj T3.name a3) =
      .ok (.dict [(T3.name, .dict [("args", .list as3)])],
           Serialization.add_class { classes := cs } T3) ∧
    deserialize (Serialization.add_class { classes := cs } T3)
        (.dict [(T3.name, .dict [("args", .list as3)])]) =
      .ok (.obj T3.name a3) ∧
    serialize (Serialization.add_class { classes := cs } T4) (.obj T4.name a4) =
      .ok (.dict [(T4.name, .dict a4)],
           Serialization.add_class { classes := cs } T4) ∧
    deserialize (Serialization.add_class { classes := cs } T4)
        (.dict [(T4.name, .dict a4)]) =
      .ok (.obj T4.name a4) := by
  refine ⟨?_, ?_, ?_, ?_, ?_, ?_, ?_, ?_⟩
  · simp only [serialize, addClass_bal_ser, addClass_ser_obj, h1g, exceptOkBind]
  · simp only [deserialize, addClass_bal_deser]
    rw [deser, if_pos (addClass_known cs T1)]
    rw [deserPayload, deserFields,
      deser_no_wrapper _ (g1 (.obj T1.name a1)) h1nw _, exceptOkBind,
      deserFields, exceptOkBind, exceptOkBind, exceptOkBind,
      addClass_decode cs T1 h1name]
    simp only [show lookupKey [("state", g1 (Value.obj T1.name a1))] "state"
        = some (g1 (.obj T1.name a1)) from rfl, h1s, h1coh]
  · simp only [serialize, addClass_bal_ser, addClass_ser_obj, h2g, h2ex, h2eq,
      exceptOkBind]
  · simp only [deserialize, addClass_bal_deser]
    rw [deser, if_pos (addClass_known cs T2)]
    rw [deserPayload, deserFields,
      deser_no_wrapper _ (.list [.list as2, .dict kw2]) h2nw _, exceptOkBind,
      deserFields, exceptOkBind, exceptOkBind, exceptOkBind,
      addClass_decode cs T2 h2name]
    simp only [show lookupKey [("args", Value.list [.list as2, .dict kw2])] "state"
        = none from rfl,
      show lookupKey [("args", Value.list [.list as2, .dict kw2])] "args"
        = some (.list [.list as2, .dict kw2]) from rfl, h2coh]
  · simp only [serialize, addClass_bal_ser, addClass_ser_obj, h3g, h3ex, h3n,
      h3eq, exceptOkBind]
  · simp only [deserialize, addClass_bal_deser]
    rw [deser, if_pos (addClass_known cs T3)]
    rw [deserPayload, deserFields,
      deser_no_wrapper _ (.list as3) h3nw _, exceptOkBind,
      deserFields, exceptOkBind, exceptOkBind, exceptOkBind,
      addClass_decode cs T3 h3name]
    simp only [show lookupKey [("args", Value.list as3)] "state" = none from rfl,
      show lookupKey [("args", Value.list as3)] "args"
        = some (.list as3) from rfl]
    rw [show Except.ok (Value.obj T3.name a3) = Except.ok (T3.new as3 []) from by
      rw [h3coh]]
    rcases as3 with _ | ⟨e1, _ | ⟨e2, _ | ⟨e3, rest⟩⟩⟩
    · rfl
    · cases e1 <;> rfl
    · cases e1 <;> try rfl
      cases e2 <;> try rfl
      simp [args_pair_shaped] at h3shape
    · cases e1 <;> try rfl
      cases e2 <;> rfl
  · have hser4 : ∀ tbl, serFields (Serialization.add_class { classes := cs } T4)
        tbl a4 = .ok (a4, tbl) :=
      serFields_of_pointwise
        (fun kv hkv => ser_flat _ kv.2 (flatFields_mem h4flat kv hkv))
    simp only [serialize, addClass_bal_ser, addClass_ser_obj, h4g, h4ex, h4n,
      hser4, exceptOkBind]
  · have hdeser4 : ∀ tbl,
        deserFields (Serialization.add_class { classes := cs } T4) tbl a4 =
          .ok a4 :=
      deserFields_of_pointwise
        (fun kv hkv => deser_no_wrapper _ kv.2 (noWrapperFields_mem h4nw kv hkv))
    simp only [deserialize, addClass_bal_deser]
    rw [deser, if_pos (addClass_known cs T4)]
    rw [deserPayload, hdeser4, exceptOkBind, exceptOkBind,
      addClass_decode cs T4 h4name]
    simp only [lookupKey_none_of_all h4nostate, lookupKey_none_of_all h4noargs]

/-- Witness type for the state-capture strategy, mirroring the test class
with state hooks. -/
def stateHookType : PyType :=
  { name := "A4",
    getstate := some fun _ => Value.str "f.txt",
    setstate := some fun st => Value.obj "A4" [("file", st)] }

/-- Witness type for the combined positional-plus-keyword capture
strategy, mirroring the test class with the combined args hook. -/
def argsKwargsType : PyType :=
  { name := "A6",
    getnewargsEx := some fun _ => ([Value.str "f.txt"], [("mode", Value.str "rb")]),
    new := fun as kw =>
      match as, kw with
      | [f], [("mode", m)] => Value.obj "A6" [("file", f), ("mode", m)]
      | _, _ => Value.null }

/-- Witness type for the positional-only capture strategy, mirroring the
test class with the positional args hook. -/
def argsOnlyType : PyType :=
  { name := "A5",
    getnewargs := some fun _ => [Value.str "f.txt"],
    new := fun as _ =>
      match as with
      | [f] => Value.obj "A5" [("file", f)]
      | _ => Value.null }

/-- Witness type for the attribute-reflection fallback, mirroring the
plain test class with no hooks. -/
def reflectType : PyType := { name := "A1" }

/-- C2 witness: one concrete instance per strategy round-trips with the
documented payload shape. -/
theorem c2_class_defaults_witness :
    serialize (Serialization.add_class {} stateHookType)
        (.obj "A4" [("file", .str "f.txt")]) =
      .ok (.dict [("A4", .dict [("state", .str "f.txt")])],
           Serialization.add_class {} stateHookType) ∧
    deserialize (Serialization.add_class {} stateHookType)
        (.dict [("A4", .dict [("state", .str "f.txt")])]) =
      .ok (.obj "A4" [("file", .str "f.txt")]) ∧
    serialize (Serialization.add_class {} argsKwargsType)
        (.obj "A6" [("file", .str "f.txt"), ("mode", .str "rb")]) =
      .ok (.dict [("A6", .dict [("args",
             .list [.list [.str "f.txt"], .dict [("mode", .str "rb")]])])],
           Serialization.add_class {} argsKwargsType) ∧
    deserialize (Serialization.add_class {} argsKwargsType)
        (.dict [("A6", .dict [("args",
           .list [.list [.str "f.txt"], .dict [("mode", .str "rb")]])])]) =
      .ok (.obj "A6" [("file", .str "f.txt"), ("mode", .str "rb")]) ∧
    serialize (Serialization.add_class {} argsOnlyType)
        (.obj "A5" [("file", .str "f.txt")]) =
      .ok (.dict [("A5", .dict [("args", .list [.str "f.txt"])])],
           Serialization.add_class {} argsOnlyType) ∧
    deserialize (Serialization.add_class {} argsOnlyType)
        (.dict [("A5", .dict [("args", .list [.str "f.txt"])])]) =
      .ok (.obj "A5" [("file", .str "f.txt")]) ∧
    serialize (Serialization.add_class {} reflectType)
        (.obj "A1" [("x", .int 1), ("y", .int 2)]) =
      .ok (.dict [("A1", .dict [("x", .int 1), ("y", .int 2)])],
           Serialization.add_class {} reflectType) ∧
    deserialize (Serialization.add_class {} reflectType)
        (.dict [("A1", .dict [("x", .int 1), ("y", .int 2)])]) =
      .ok (.obj "A1" [("x", .int 1), ("y", .int 2)]) :=
  c2_class_defaults []
    stateHookType [("file", .str "f.txt")]
    (fun _ => Value.str "f.txt") (fun st => Value.obj "A4" [("file", st)])
    argsKwargsType [("file", .str "f.txt"), ("mode", .str "rb")]
    (fun _ => ([Value.str "f.txt"], [("mode", Value.str "rb")]))
    [Value.str "f.txt"] [("mode", Value.str "rb")]
    argsOnlyType [("file", .str "f.txt")]
    (fun _ => [Value.str "f.txt"]) [Value.str "f.txt"]
    reflectType [("x", .int 1), ("y", .int 2)]
    rfl rfl rfl rfl rfl
    rfl rfl rfl rfl rfl rfl
    rfl rfl rfl rfl rfl rfl rfl rfl
    rfl rfl rfl rfl rfl rfl rfl rfl

end Srlz
